import Mathlib

/-!
# rss-reader: feed synchronisation and persistence

A shallow embedding of `internal/models/feed.go`, `internal/feed/feed.go`,
`internal/storage/storage.go` and of `wrapText` in `internal/ui/ui.go`, followed by
the properties proved about them.

Conventions of the embedding:

* a Go `string` is a Lean `String`, a `[]byte` is a `List UInt8`, a `time.Time`
  is an instant with the offset of its zone, an `error` is its message;
* a method that mutates its receiver's surroundings (the file system, the feed
  behind a pointer) takes the old state and returns the new one;
* functions of the Go standard library and of `gofeed` that the code calls are
  parameters: `md5.Sum`, `json.Marshal`, `json.Unmarshal`, `filepath.Join`,
  `os.ReadDir`, `Parser.ParseURL`, `time.Now`.
-/

namespace RssReader

/-! ## models/feed.go -/

/-- The embedding of `time.Time`: the instant, in nanoseconds since the epoch, and
the offset of its zone, in seconds east of UTC. -/
structure Time where
  unixNano : Int
  offset : Int
  deriving DecidableEq, Repr

/-- A numeral read as a time: that many nanoseconds after the epoch, in UTC. -/
instance (n : Nat) : OfNat Time n :=
  ⟨{ unixNano := n, offset := 0 }⟩

/-- The embedding of a Go `error` value: its message. -/
abbrev Error := String

/-- The embedding of `[]byte`. -/
abbrev Bytes := List UInt8

/-- Item represents an individual news/article from an RSS channel. -/
structure Item where
  ID : String
  Title : String
  Description : String
  Content : String
  Link : String
  Published : Time
  Read : Bool
  deriving DecidableEq, Repr

/-- Feed represents an RSS channel. -/
structure Feed where
  ID : String
  Title : String
  Description : String
  URL : String
  ImageURL : String
  LastUpdated : Time
  Items : List Item
  deriving DecidableEq, Repr

/-! ## The parsed document of the `gofeed` collaborator -/

/-- The fields of `gofeed.Image` the code reads. -/
structure GoImage where
  URL : String
  deriving DecidableEq, Repr

/-- The fields of `gofeed.Item` the code reads. -/
structure GoItem where
  GUID : String
  Link : String
  Title : String
  Description : String
  Content : String
  PublishedParsed : Option Time
  UpdatedParsed : Option Time
  deriving DecidableEq, Repr

/-- The fields of `gofeed.Feed` the code reads. -/
structure GoFeed where
  Title : String
  Description : String
  Image : Option GoImage
  Items : List GoItem
  deriving DecidableEq, Repr

/-! ## feed/feed.go -/

/-- One hexadecimal digit, lower case, as `%x` prints it. -/
def hexDigit (n : Nat) : Char :=
  if n < 10 then Char.ofNat (48 + n) else Char.ofNat (87 + n)

/-- The two digits `%x` prints for one byte. -/
def hexByte (b : UInt8) : List Char :=
  [hexDigit (b.toNat / 16), hexDigit (b.toNat % 16)]

/-- The bytes of a string: `[]byte(input)`. -/
def stringBytes (s : String) : Bytes :=
  s.data.flatMap String.utf8EncodeChar

/-- generateID generates a unique ID based on the input string: the digest
`md5.Sum([]byte(input))` printed with `%x`. The digest function is the
parameter `md5Sum`. -/
def generateID (md5Sum : Bytes → Bytes) (input : String) : String :=
  let hash := md5Sum (stringBytes input)
  String.mk (hash.flatMap hexByte)

/-- The body of the loop of `FetchFeed` for one entry. `time.Now()` is read from
`clock` at tick `n`; the result carries the next tick. -/
def convertItem (md5Sum : Bytes → Bytes) (clock : Nat → Time) (n : Nat)
    (gitem : GoItem) : Item × Nat :=
  let content := if gitem.Content ≠ "" then gitem.Content else gitem.Description
  let published : Time × Nat :=
    match gitem.PublishedParsed with
    | some t => (t, n)
    | none =>
      match gitem.UpdatedParsed with
      | some t => (t, n)
      | none => (clock n, n + 1)
  ({ ID := generateID md5Sum (gitem.GUID ++ gitem.Link)
     Title := gitem.Title
     Description := gitem.Description
     Content := content
     Link := gitem.Link
     Published := published.1
     Read := false }, published.2)

/-- The loop `for _, gitem := range gfeed.Items` of `FetchFeed`: every entry is
converted and appended to the items built so far. -/
def convertItems (md5Sum : Bytes → Bytes) (clock : Nat → Time) :
    Nat → List GoItem → List Item → List Item
  | _, [], items => items
  | n, gitem :: rest, items =>
    let r := convertItem md5Sum clock n gitem
    convertItems md5Sum clock r.2 rest (items ++ [r.1])

/-- FetchFeed downloads an RSS feed from the specified URL. `parseURL` is the
answer of the parsing collaborator at the time of the call, `clock k` is what
the k-th call of `time.Now()` returns. -/
def FetchFeed (md5Sum : Bytes → Bytes) (parseURL : String → Except Error GoFeed)
    (clock : Nat → Time) (url : String) : Except Error Feed :=
  match parseURL url with
  | .error err => .error err
  | .ok gfeed =>
    let feedID := generateID md5Sum url
    let imageURL :=
      match gfeed.Image with
      | some image => image.URL
      | none => ""
    .ok { ID := feedID
          Title := gfeed.Title
          Description := gfeed.Description
          URL := url
          ImageURL := imageURL
          LastUpdated := clock 0
          Items := convertItems md5Sum clock 1 gfeed.Items [] }

/-- The embedding of the `map[string]bool` that `UpdateFeed` builds: the
bindings, the most recent one first. -/
abbrev ReadSet := List (String × Bool)

/-- The assignment `m[key] = value`. -/
def ReadSet.store (m : ReadSet) (key : String) (value : Bool) : ReadSet :=
  (key, value) :: m

/-- The second result of `_, exists := m[key]`. -/
def ReadSet.contains (m : ReadSet) (key : String) : Bool :=
  (m.lookup key).isSome

/-- The first loop of `UpdateFeed`: save the state of read articles. -/
def collectRead : List Item → ReadSet → ReadSet
  | [], readItems => readItems
  | item :: rest, readItems =>
    if item.Read then collectRead rest (readItems.store item.ID true)
    else collectRead rest readItems

/-- The second loop of `UpdateFeed`: an article whose ID is in `readItems` gets
`Read = true`; nothing else is assigned. -/
def markRead (readItems : ReadSet) : List Item → List Item
  | [] => []
  | item :: rest =>
    (if readItems.contains item.ID then { item with Read := true } else item)
      :: markRead readItems rest

/-- The merge step of `UpdateFeed` (the code after the fetch): the fetched feed
with the read state of the old one carried over. -/
def merge (oldFeed newFeed : Feed) : Feed :=
  let readItems := collectRead oldFeed.Items []
  { newFeed with Items := markRead readItems newFeed.Items }

/-- UpdateFeed updates the feed while preserving read articles. -/
def UpdateFeed (md5Sum : Bytes → Bytes) (parseURL : String → Except Error GoFeed)
    (clock : Nat → Time) (oldFeed : Feed) : Except Error Feed :=
  match FetchFeed md5Sum parseURL clock oldFeed.URL with
  | .error err => .error err
  | .ok newFeed => .ok (merge oldFeed newFeed)

/-! ## storage/storage.go -/

/-- What `os.ReadDir` reports about one directory entry: `Name()` and `IsDir()`. -/
structure DirEntry where
  Name : String
  IsDir : Bool
  deriving DecidableEq, Repr

/-- The state of the file system: the regular files that can be read, each path
with its contents, and the paths at which a write is refused. -/
structure FileSystem where
  files : List (String × Bytes)
  readOnly : List String
  deriving DecidableEq, Repr

/-- The library functions `FileStorage` calls and the code does not define:
`json.Marshal` of a feed, `json.Unmarshal` into an empty feed, `filepath.Join`,
`os.ReadDir`. -/
structure Lib where
  Marshal : Feed → Except Error Bytes
  Unmarshal : Bytes → Except Error Feed
  Join : String → String → String
  ReadDir : FileSystem → String → Except Error (List DirEntry)

/-- The call `os.ReadFile(path)`. -/
def ReadFile (fs : FileSystem) (path : String) : Except Error Bytes :=
  match fs.files.lookup path with
  | some data => .ok data
  | none => .error ("open " ++ path ++ ": no such file or directory")

/-- The call `os.WriteFile(path, data, 0644)`: the error, if any, and the file
system after the call. A successful write replaces the whole file. -/
def WriteFile (fs : FileSystem) (path : String) (data : Bytes) : Option Error × FileSystem :=
  if path ∈ fs.readOnly then
    (some ("open " ++ path ++ ": permission denied"), fs)
  else
    (none, { fs with files := (path, data) :: fs.files.filter (fun e => e.1 != path) })

/-- The call `os.Remove(path)`. -/
def Remove (fs : FileSystem) (path : String) : Option Error × FileSystem :=
  match fs.files.lookup path with
  | none => (some ("remove " ++ path ++ ": no such file or directory"), fs)
  | some _ => (none, { fs with files := fs.files.filter (fun e => e.1 != path) })

/-- The scan of `filepath.Ext` from the end of the path: `seen` holds what lies
after the character under inspection. -/
def extScan : List Char → List Char → String
  | [], _ => ""
  | c :: before, seen =>
    if c = '/' then ""
    else if c = '.' then String.mk (c :: seen)
    else extScan before (c :: seen)

/-- The function `filepath.Ext`: the suffix beginning at the final dot in the final
element of the path, empty if there is no dot. -/
def Ext (path : String) : String :=
  extScan path.data.reverse []

/-- FileStorage represents a file system based storage implementation. -/
structure FileStorage where
  dataDir : String
  deriving DecidableEq, Repr

/-- What a call of `SaveFeed` leaves behind: the error it returns, the feed behind
the pointer it was given, and the file system. -/
structure SaveResult where
  err : Option Error
  feed : Feed
  fs : FileSystem
  deriving DecidableEq, Repr

/-- SaveFeed saves an RSS feed to storage. `now` is what `time.Now()` returns. -/
def FileStorage.SaveFeed (lib : Lib) (s : FileStorage) (now : Time) (feed : Feed)
    (fs : FileSystem) : SaveResult :=
  if feed.ID = "" then
    { err := some "feed ID cannot be empty", feed := feed, fs := fs }
  else
    let feed := { feed with LastUpdated := now }
    match lib.Marshal feed with
    | .error err => { err := some err, feed := feed, fs := fs }
    | .ok data =>
      let filePath := lib.Join s.dataDir (feed.ID ++ ".json")
      let w := WriteFile fs filePath data
      { err := w.1, feed := feed, fs := w.2 }

/-- GetFeedByID returns an RSS feed by its ID. -/
def FileStorage.GetFeedByID (lib : Lib) (s : FileStorage) (id : String)
    (fs : FileSystem) : Except Error Feed :=
  let filePath := lib.Join s.dataDir (id ++ ".json")
  match ReadFile fs filePath with
  | .error err => .error err
  | .ok data =>
    match lib.Unmarshal data with
    | .error err => .error err
    | .ok feed => .ok feed

/-- The loop of `GetAllFeeds` over the directory entries: `feeds` is the slice
built so far. -/
def FileStorage.collectFeeds (lib : Lib) (s : FileStorage) (fs : FileSystem) :
    List DirEntry → List Feed → List Feed
  | [], feeds => feeds
  | file :: rest, feeds =>
    if file.IsDir || Ext file.Name != ".json" then
      FileStorage.collectFeeds lib s fs rest feeds
    else
      match ReadFile fs (lib.Join s.dataDir file.Name) with
      | .error _ => FileStorage.collectFeeds lib s fs rest feeds
      | .ok data =>
        match lib.Unmarshal data with
        | .error _ => FileStorage.collectFeeds lib s fs rest feeds
        | .ok feed => FileStorage.collectFeeds lib s fs rest (feeds ++ [feed])

/-- GetAllFeeds returns all saved RSS feeds. -/
def FileStorage.GetAllFeeds (lib : Lib) (s : FileStorage) (fs : FileSystem) :
    Except Error (List Feed) :=
  match lib.ReadDir fs s.dataDir with
  | .error err => .error err
  | .ok files => .ok (FileStorage.collectFeeds lib s fs files [])

/-- DeleteFeed removes an RSS feed from storage. -/
def FileStorage.DeleteFeed (lib : Lib) (s : FileStorage) (id : String)
    (fs : FileSystem) : Option Error × FileSystem :=
  let filePath := lib.Join s.dataDir (id ++ ".json")
  Remove fs filePath

/-- UpdateFeed updates an RSS feed in storage. -/
def FileStorage.UpdateFeed (lib : Lib) (s : FileStorage) (now : Time) (feed : Feed)
    (fs : FileSystem) : SaveResult :=
  FileStorage.SaveFeed lib s now feed fs

/-- The loop of `MarkItemAsRead`: the first article whose ID is `itemID` gets
`Read = true` and the loop stops. The result is the articles after the loop and
the flag `found`. -/
def markFirst (itemID : String) : List Item → List Item × Bool
  | [] => ([], false)
  | item :: rest =>
    if item.ID = itemID then
      ({ item with Read := true } :: rest, true)
    else
      let r := markFirst itemID rest
      (item :: r.1, r.2)

/-- MarkItemAsRead marks an article as read: the error it returns, if any, and the
file system after the call. -/
def FileStorage.MarkItemAsRead (lib : Lib) (s : FileStorage) (now : Time)
    (feedID itemID : String) (fs : FileSystem) : Option Error × FileSystem :=
  match FileStorage.GetFeedByID lib s feedID fs with
  | .error err => (some err, fs)
  | .ok feed =>
    let r := markFirst itemID feed.Items
    let feed := { feed with Items := r.1 }
    if !r.2 then
      (some "item not found", fs)
    else
      let saved := FileStorage.SaveFeed lib s now feed fs
      (saved.err, saved.fs)

/-! ## ui/ui.go: `wrapText`

`wrapText` indexes its argument byte by byte, so here a Go `string` is the list of
its bytes. An index or slice expression that would panic returns an error, and so
does the loop if it is not done after the steps it is given. -/

/-- The call `strings.Split(text, "\n")`: the pieces between the newlines, one
more than there are newlines. -/
def splitLines : Bytes → List Bytes
  | [] => [[]]
  | b :: rest =>
    if b = 10 then [] :: splitLines rest
    else (b :: (splitLines rest).headD []) :: (splitLines rest).tail

/-- The call `strings.Join(lines, "\n")`. -/
def joinLines : List Bytes → Bytes
  | [] => []
  | [line] => line
  | line :: rest => line ++ 10 :: joinLines rest

/-- The index expression `s[idx]`. -/
def byteAt (s : Bytes) (idx : Nat) : Except Error UInt8 :=
  match s[idx]? with
  | some b => .ok b
  | none => .error "index out of range"

/-- The slice expression `s[:idx]`. -/
def sliceTo (s : Bytes) (idx : Nat) : Except Error Bytes :=
  if idx ≤ s.length then .ok (s.take idx) else .error "slice bounds out of range"

/-- The slice expression `s[idx:]`. -/
def sliceFrom (s : Bytes) (idx : Nat) : Except Error Bytes :=
  if idx ≤ s.length then .ok (s.drop idx) else .error "slice bounds out of range"

/-- The loop `for idx > 0 && remaining[idx] != ' ' { idx-- }`: the value of `idx`
when it ends. -/
def scanSpace (remaining : Bytes) : Nat → Except Error Nat
  | 0 => .ok 0
  | idx + 1 =>
    match byteAt remaining (idx + 1) with
    | .error err => .error err
    | .ok c => if c ≠ 32 then scanSpace remaining idx else .ok (idx + 1)

/-- The statement `if len(remaining) > 0 && remaining[0] == ' ' { remaining =
remaining[1:] }`: the value of `remaining` after it. -/
def skipSpace (remaining : Bytes) : Except Error Bytes :=
  if remaining.length > 0 then
    match byteAt remaining 0 with
    | .error err => .error err
    | .ok c => if c = 32 then sliceFrom remaining 1 else .ok remaining
  else .ok remaining

/-- The loop `for len(remaining) > maxWidth { ... }` of `wrapText` followed by
`wrapped.WriteString(remaining)`; `wrapped` is what the builder holds. The first
argument bounds the number of iterations. -/
def wrapLoop (maxWidth : Nat) : Nat → Bytes → Bytes → Except Error Bytes
  | 0, remaining, wrapped =>
    if remaining.length > maxWidth then .error "loop not finished"
    else .ok (wrapped ++ remaining)
  | steps + 1, remaining, wrapped =>
    if remaining.length > maxWidth then
      match scanSpace remaining maxWidth with
      | .error err => .error err
      | .ok found =>
        let idx := if found = 0 then maxWidth else found
        match sliceTo remaining idx with
        | .error err => .error err
        | .ok head =>
          match sliceFrom remaining idx with
          | .error err => .error err
          | .ok rest =>
            match skipSpace rest with
            | .error err => .error err
            | .ok rest => wrapLoop maxWidth steps rest (wrapped ++ head ++ [10])
    else .ok (wrapped ++ remaining)

/-- The body of the loop over the lines of `wrapText`: what `lines[i]` holds after
the iteration for `line`. The inner loop is given as many steps as the line has
bytes. -/
def wrapLine (maxWidth : Nat) (line : Bytes) : Except Error Bytes :=
  if line.length > maxWidth then
    if line.contains 60 && line.contains 62 then .ok line
    else wrapLoop maxWidth line.length line []
  else .ok line

/-- The loop `for i, line := range lines` of `wrapText`. -/
def wrapLines (maxWidth : Nat) : List Bytes → Except Error (List Bytes)
  | [] => .ok []
  | line :: rest =>
    match wrapLine maxWidth line with
    | .error err => .error err
    | .ok wrapped =>
      match wrapLines maxWidth rest with
      | .error err => .error err
      | .ok lines => .ok (wrapped :: lines)

/-- wrapText breaks long strings into shorter ones. -/
def wrapText (text : Bytes) (maxWidth : Int) : Except Error Bytes :=
  if maxWidth ≤ 0 then .ok text
  else
    match wrapLines maxWidth.toNat (splitLines text) with
    | .error err => .error err
    | .ok lines => .ok (joinLines lines)

/-! ## Vocabulary of the statements -/

/-- An article and its image under the merge step agree in every field but `Read`. -/
def SameButRead (r n : Item) : Prop :=
  r.ID = n.ID ∧ r.Title = n.Title ∧ r.Description = n.Description ∧ r.Content = n.Content ∧
    r.Link = n.Link ∧ r.Published = n.Published

/-- The file that holds the record of the feed `id`: the path both `SaveFeed` and
`GetFeedByID` compute. -/
def FileStorage.recordPath (lib : Lib) (s : FileStorage) (id : String) : String :=
  lib.Join s.dataDir (id ++ ".json")

/-- What `json.Unmarshal` reads back from what `json.Marshal` wrote for a time.
`Time.MarshalJSON` writes RFC 3339: the wall clock of the zone and the zone offset
in hours and minutes, the seconds of the offset cut off. Read back, the offset is
the whole minutes and the instant is later by the seconds that were cut off. -/
def jsonTime (t : Time) : Time :=
  { unixNano := t.unixNano + Int.tmod t.offset 60 * 1000000000
    offset := t.offset - Int.tmod t.offset 60 }

/-- What `json.Unmarshal` reads back from what `json.Marshal` wrote for a feed:
every field as it was, the two kinds of time as `jsonTime` gives them. -/
def jsonFeed (feed : Feed) : Feed :=
  { feed with
    LastUpdated := jsonTime feed.LastUpdated
    Items := feed.Items.map (fun item => { item with Published := jsonTime item.Published }) }

/-- How `encoding/json` treats a feed whose text is valid UTF-8, as every `String`
is: what `json.Marshal` wrote, `json.Unmarshal` reads back as `jsonFeed` of it, and
every time `json.Unmarshal` produces has a zone offset of whole minutes. -/
def Lib.ReadsBackJSON (lib : Lib) : Prop :=
  (∀ feed data, lib.Marshal feed = .ok data → lib.Unmarshal data = .ok (jsonFeed feed)) ∧
  (∀ data feed, lib.Unmarshal data = .ok feed →
    ∀ item ∈ feed.Items, Int.tmod item.Published.offset 60 = 0)

/-- The feed a directory entry contributes to the enumeration: the decoded record
when the entry is a regular `.json` file that can be read and deserialized, nothing
otherwise. -/
def FileStorage.recordFeed (lib : Lib) (s : FileStorage) (fs : FileSystem)
    (file : DirEntry) : Option Feed :=
  if file.IsDir = false ∧ Ext file.Name = ".json" then
    match ReadFile fs (lib.Join s.dataDir file.Name) with
    | .error _ => none
    | .ok data =>
      match lib.Unmarshal data with
      | .error _ => none
      | .ok feed => some feed
  else none

/-- Every line of `text`, split at the newlines, has at most `maxWidth` bytes. -/
def LinesWithin (maxWidth : Nat) (text : Bytes) : Prop :=
  ∀ line ∈ splitLines text, line.length ≤ maxWidth

/-! ## Sample values -/

/-- A codec over a finite book of feeds: a feed of the book is written as its
position in the book, in unary; any other feed is refused. -/
def bookMarshal (book : List Feed) (feed : Feed) : Except Error Bytes :=
  if feed ∈ book then .ok (List.replicate (book.indexOf feed) 1)
  else .error "json: unsupported value"

/-- The decoder of the book codec: the feed at the position the data spell. -/
def bookUnmarshal (book : List Feed) (data : Bytes) : Except Error Feed :=
  match book[data.length]? with
  | some feed => .ok feed
  | none => .error "unexpected end of JSON input"

/-- A library instance for examples: the book codec, paths joined with a slash,
and a fixed directory listing. -/
def sampleLib (book : List Feed) (listing : List DirEntry) : Lib :=
  { Marshal := bookMarshal book
    Unmarshal := bookUnmarshal book
    Join := fun dir name => dir ++ "/" ++ name
    ReadDir := fun _ _ => .ok listing }

/-- The book codec with the times written the way `encoding/json` writes them:
a feed is filed as what will be read back for it. -/
def jsonBookLib (book : List Feed) (listing : List DirEntry) : Lib :=
  { Marshal := fun feed => bookMarshal book (jsonFeed feed)
    Unmarshal := bookUnmarshal book
    Join := fun dir name => dir ++ "/" ++ name
    ReadDir := fun _ _ => .ok listing }

/-- A stand-in for the digest in examples: the length of the input, one byte. -/
def sampleDigest (input : Bytes) : Bytes :=
  [UInt8.ofNat input.length]

/-- The store of the examples. -/
def sampleStorage : FileStorage :=
  { dataDir := "data" }

/-- An article with the given ID and read flag, its other fields fixed. -/
def sampleItem (id : String) (read : Bool) : Item :=
  { ID := id, Title := "title of " ++ id, Description := "", Content := "body",
    Link := "https://example.org/" ++ id, Published := 1700000000, Read := read }

/-- A feed with the given articles, its other fields fixed. -/
def sampleFeed (items : List Item) : Feed :=
  { ID := "feed-1", Title := "Example", Description := "", URL := "https://example.org/rss",
    ImageURL := "", LastUpdated := 1700000000, Items := items }

/-- An entry of a parsed document with the given GUID and link. -/
def sampleEntry (guid link : String) : GoItem :=
  { GUID := guid, Link := link, Title := "entry", Description := "summary", Content := "",
    PublishedParsed := none, UpdatedParsed := some 1700000000 }

/-- A parsed document with the given entries. -/
def sampleDocument (entries : List GoItem) : GoFeed :=
  { Title := "Example", Description := "", Image := none, Items := entries }

/-- A clock for examples: one second per reading. -/
def sampleClock (k : Nat) : Time :=
  { unixNano := 1700000000 + k, offset := 0 }

/-- A file system that holds the given files and refuses no write. -/
def sampleFiles (files : List (String × Bytes)) : FileSystem :=
  { files := files, readOnly := [] }

/-- The feed with the time stamp a save at `now` gives it. -/
def sampleStamped (now : Time) (feed : Feed) : Feed :=
  { feed with LastUpdated := now }

/-- A directory as `os.ReadDir` may report it: a good record, a corrupted one, a
file that is no record, a directory named like a record, and a record that
cannot be read. -/
def sampleListing : List DirEntry :=
  [⟨"good.json", false⟩, ⟨"bad.json", false⟩, ⟨"notes.txt", false⟩, ⟨"sub.json", true⟩,
    ⟨"gone.json", false⟩]

/-- A stored feed in which the ID "B" occurs twice. -/
def sampleStored : Feed :=
  sampleFeed [sampleItem "A" false, sampleItem "B" false, sampleItem "B" false]

/-- The stored feed with its first "B" read. -/
def sampleMarked : Feed :=
  sampleFeed [sampleItem "A" false, sampleItem "B" true, sampleItem "B" false]

/-- The feeds the book codec of the `MarkItemAsRead` examples knows. -/
def sampleBook : List Feed :=
  [sampleStored, sampleStamped 1700000123 sampleMarked, sampleStamped 1700000456 sampleMarked]

/-- A store that holds the record of `sampleStored`. -/
def sampleStore : FileSystem :=
  sampleFiles [("data/feed-1.json", [])]

/-- A feed whose article was published in a zone 28 seconds east of UTC. -/
def sampleZoned : Feed :=
  sampleFeed [{ sampleItem "A" false with
                  Published := { unixNano := 1700000000000000000, offset := 28 } }]

/-- The stored feed as a record that carries no ID. -/
def sampleNoID : Feed :=
  { sampleStored with ID := "" }

/-! ## Properties of the merge step -/

theorem ReadSet.contains_store (m : ReadSet) (key : String) (value : Bool) (id : String) :
    (m.store key value).contains id = (id == key || m.contains id) := by
  unfold ReadSet.store ReadSet.contains
  rw [List.lookup_cons]
  cases h : (id == key) <;> simp

theorem contains_collectRead (items : List Item) (m : ReadSet) (id : String) :
    (collectRead items m).contains id
      = (m.contains id || items.any (fun o => o.Read && o.ID == id)) := by
  induction items generalizing m with
  | nil => simp [collectRead]
  | cons item rest ih =>
    unfold collectRead
    by_cases hr : item.Read = true
    · rw [if_pos hr, ih, ReadSet.contains_store, List.any_cons, hr]
      by_cases hid : item.ID = id
      · subst hid
        simp
      · have h1 : (id == item.ID) = false := by
          simpa using fun h => hid h.symm
        have h2 : (item.ID == id) = false := by simpa using hid
        simp [h1, h2]
    · rw [if_neg hr, ih, List.any_cons]
      simp [hr]

/-- The read set built from the old items holds exactly the IDs of its read items. -/
theorem contains_collectRead_nil (items : List Item) (id : String) :
    (collectRead items []).contains id = items.any (fun o => o.Read && o.ID == id) := by
  rw [contains_collectRead]
  simp [ReadSet.contains]

theorem markRead_eq_map (m : ReadSet) (items : List Item) :
    markRead m items
      = items.map (fun item => if m.contains item.ID then { item with Read := true } else item) := by
  induction items with
  | nil => rfl
  | cons item rest ih => simp [markRead, ih]

theorem markRead_length (m : ReadSet) (items : List Item) :
    (markRead m items).length = items.length := by
  simp [markRead_eq_map]

theorem markRead_markRead (m : ReadSet) (items : List Item) :
    markRead m (markRead m items) = markRead m items := by
  induction items with
  | nil => rfl
  | cons item rest ih =>
    simp only [markRead, ih]
    by_cases h : m.contains item.ID = true
    · simp [h]
    · simp [h]

/-- The read flag the merge step leaves in the article at position `i`. -/
theorem merge_getElem? (oldFeed newFeed : Feed) (i : Nat) :
    (merge oldFeed newFeed).Items[i]?
      = (newFeed.Items[i]?).map (fun n =>
          if oldFeed.Items.any (fun o => o.Read && o.ID == n.ID) then { n with Read := true }
          else n) := by
  simp [merge, markRead_eq_map, contains_collectRead_nil]

/-- Every article `FetchFeed` builds is unread, so the new feed that `UpdateFeed`
hands to the merge step has no read article. -/
theorem convertItems_unread (md5Sum : Bytes → Bytes) (clock : Nat → Time) (n : Nat)
    (gitems : List GoItem) (items : List Item) (h : ∀ it ∈ items, it.Read = false) :
    ∀ it ∈ convertItems md5Sum clock n gitems items, it.Read = false := by
  induction gitems generalizing n items with
  | nil => simpa [convertItems] using h
  | cons gitem rest ih =>
    unfold convertItems
    apply ih
    intro it hit
    rcases List.mem_append.mp hit with h1 | h1
    · exact h it h1
    · have : it = (convertItem md5Sum clock n gitem).1 := by simpa using h1
      subst this
      rfl

theorem FetchFeed_unread (md5Sum : Bytes → Bytes) (parseURL : String → Except Error GoFeed)
    (clock : Nat → Time) (url : String) (feed : Feed)
    (h : FetchFeed md5Sum parseURL clock url = .ok feed) :
    ∀ it ∈ feed.Items, it.Read = false := by
  unfold FetchFeed at h
  split at h
  · cases h
  · cases h
    exact convertItems_unread md5Sum clock 1 _ [] (by simp)

/-- When no article of the new feed is read, an article of the merged feed is read
exactly if a read article of the old feed has its ID. -/
theorem markRead_collectRead_iff (oldFeed newFeed : Feed)
    (hnew : ∀ n ∈ newFeed.Items, n.Read = false) :
    ∀ it ∈ (merge oldFeed newFeed).Items,
      (it.Read = true ↔ ∃ o ∈ oldFeed.Items, o.ID = it.ID ∧ o.Read = true) := by
  intro it hit
  obtain ⟨i, hi⟩ := List.mem_iff_getElem?.mp hit
  rw [merge_getElem?] at hi
  cases hn : newFeed.Items[i]? with
  | none => simp [hn] at hi
  | some n =>
    have hnr : n.Read = false := hnew n (List.getElem?_mem hn)
    rw [hn, Option.map_some', Option.some.injEq] at hi
    by_cases hany : oldFeed.Items.any (fun o => o.Read && o.ID == n.ID) = true
    · rw [if_pos hany] at hi
      subst hi
      simp only [true_iff]
      obtain ⟨o, ho, hp⟩ := List.any_eq_true.mp hany
      simp only [Bool.and_eq_true, beq_iff_eq] at hp
      exact ⟨o, ho, hp.2, hp.1⟩
    · rw [if_neg hany] at hi
      subst hi
      simp only [hnr, Bool.false_eq_true, false_iff]
      rintro ⟨o, ho, hid, hr⟩
      exact hany (List.any_eq_true.mpr ⟨o, ho, by simp [hr, hid]⟩)

/-- C1: for every old feed and every document the parser answers with, `UpdateFeed`
returns `merge old new`, with `new` the feed `FetchFeed` builds from the document,
and an article of the result is read if and only if its ID is the ID of a read
article of the old feed. So an article whose ID does not occur in the old feed is
unread, and so is one whose old counterparts are all unread. -/
theorem merge_read_iff (md5Sum : Bytes → Bytes) (parseURL : String → Except Error GoFeed)
    (clock : Nat → Time) (oldFeed : Feed) (gfeed : GoFeed)
    (hparse : parseURL oldFeed.URL = .ok gfeed) :
    ∃ newFeed, FetchFeed md5Sum parseURL clock oldFeed.URL = .ok newFeed ∧
      UpdateFeed md5Sum parseURL clock oldFeed = .ok (merge oldFeed newFeed) ∧
      (∀ it ∈ (merge oldFeed newFeed).Items,
        (it.Read = true ↔ ∃ o ∈ oldFeed.Items, o.ID = it.ID ∧ o.Read = true)) ∧
      (∀ it ∈ (merge oldFeed newFeed).Items,
        (∀ o ∈ oldFeed.Items, o.ID ≠ it.ID) → it.Read = false) ∧
      (∀ it ∈ (merge oldFeed newFeed).Items,
        (∀ o ∈ oldFeed.Items, o.ID = it.ID → o.Read = false) → it.Read = false) := by
  have hfetch : ∃ newFeed, FetchFeed md5Sum parseURL clock oldFeed.URL = .ok newFeed := by
    unfold FetchFeed
    simp only [hparse]
    exact ⟨_, rfl⟩
  obtain ⟨newFeed, hnew⟩ := hfetch
  have hiff := markRead_collectRead_iff oldFeed newFeed
    (FetchFeed_unread md5Sum parseURL clock oldFeed.URL newFeed hnew)
  refine ⟨newFeed, hnew, ?_, hiff, ?_, ?_⟩
  · unfold UpdateFeed
    simp only [hnew]
  · intro it hit hnone
    cases hr : it.Read with
    | false => rfl
    | true =>
      obtain ⟨o, ho, hid, _⟩ := (hiff it hit).mp hr
      exact absurd hid (hnone o ho)
  · intro it hit hunread
    cases hr : it.Read with
    | false => rfl
    | true =>
      obtain ⟨o, ho, hid, hread⟩ := (hiff it hit).mp hr
      rw [hunread o ho hid] at hread
      cases hread

/-- An old feed with one read article is updated from a document that has the
entry of that article and a new one. -/
theorem merge_read_iff_witness :
    ∃ newFeed,
      FetchFeed sampleDigest
        (fun _ => .ok (sampleDocument [sampleEntry "guid-1" "", sampleEntry "guid-22" ""]))
        sampleClock
        (sampleFeed [{ sampleItem "A" true with ID := generateID sampleDigest "guid-1" }]).URL
        = .ok newFeed ∧
      UpdateFeed sampleDigest
        (fun _ => .ok (sampleDocument [sampleEntry "guid-1" "", sampleEntry "guid-22" ""]))
        sampleClock
        (sampleFeed [{ sampleItem "A" true with ID := generateID sampleDigest "guid-1" }])
        = .ok (merge
            (sampleFeed [{ sampleItem "A" true with ID := generateID sampleDigest "guid-1" }])
            newFeed) ∧
      (merge (sampleFeed [{ sampleItem "A" true with ID := generateID sampleDigest "guid-1" }])
        newFeed).Items.map (fun it => it.Read) = [true, false] :=
  (merge_read_iff sampleDigest
    (fun _ => .ok (sampleDocument [sampleEntry "guid-1" "", sampleEntry "guid-22" ""]))
    sampleClock
    (sampleFeed [{ sampleItem "A" true with ID := generateID sampleDigest "guid-1" }])
    (sampleDocument [sampleEntry "guid-1" "", sampleEntry "guid-22" ""]) rfl).elim
    fun newFeed h => ⟨newFeed, h.1, h.2.1, by
      have hnew := h.1
      cases hnew
      decide⟩

theorem markRead_sameButRead (m : ReadSet) (items : List Item) :
    List.Forall₂ SameButRead (markRead m items) items := by
  induction items with
  | nil => exact List.Forall₂.nil
  | cons item rest ih =>
    unfold markRead
    refine List.Forall₂.cons ?_ ih
    by_cases h : m.contains item.ID = true
    · rw [if_pos h]
      exact ⟨rfl, rfl, rfl, rfl, rfl, rfl⟩
    · rw [if_neg h]
      exact ⟨rfl, rfl, rfl, rfl, rfl, rfl⟩

/-- C2: `merge old new` is `new` up to read flags. The feed-level fields are those
of `new`; the articles are those of `new`, as many and in the same order, each with
every field but `Read` unchanged; so an old article whose ID is not in `new` is not
in the result. -/
theorem merge_frame (oldFeed newFeed : Feed) :
    (merge oldFeed newFeed).ID = newFeed.ID ∧
    (merge oldFeed newFeed).Title = newFeed.Title ∧
    (merge oldFeed newFeed).Description = newFeed.Description ∧
    (merge oldFeed newFeed).URL = newFeed.URL ∧
    (merge oldFeed newFeed).ImageURL = newFeed.ImageURL ∧
    (merge oldFeed newFeed).LastUpdated = newFeed.LastUpdated ∧
    (merge oldFeed newFeed).Items.length = newFeed.Items.length ∧
    List.Forall₂ SameButRead (merge oldFeed newFeed).Items newFeed.Items ∧
    (∀ o ∈ oldFeed.Items, (∀ n ∈ newFeed.Items, n.ID ≠ o.ID) →
      ∀ r ∈ (merge oldFeed newFeed).Items, r.ID ≠ o.ID) := by
  refine ⟨rfl, rfl, rfl, rfl, rfl, rfl, markRead_length _ _, markRead_sameButRead _ _, ?_⟩
  intro o _ hnot r hr
  have hr2 : r ∈ markRead (collectRead oldFeed.Items []) newFeed.Items := hr
  rw [markRead_eq_map] at hr2
  obtain ⟨n, hn, hrn⟩ := List.mem_map.mp hr2
  have hid : r.ID = n.ID := by
    rw [← hrn]
    split <;> rfl
  rw [hid]
  exact hnot n hn

/-- The merge of {A (read), B (unread)} into a fetch that only has B: the one
article of the result does not have the ID of A. -/
theorem merge_frame_witness :
    (sampleItem "B" false).ID ≠ (sampleItem "A" true).ID :=
  (merge_frame (sampleFeed [sampleItem "A" true, sampleItem "B" false])
    (sampleFeed [sampleItem "B" false])).2.2.2.2.2.2.2.2
    (sampleItem "A" true) (by decide) (by decide) (sampleItem "B" false) (by decide)

/-- C7: merging the merged feed again against the same old feed changes nothing. -/
theorem merge_idempotent (oldFeed newFeed : Feed) :
    merge oldFeed (merge oldFeed newFeed) = merge oldFeed newFeed := by
  simp only [merge, markRead_markRead]

/-- C10 (as amended): the flag the merge gives the new article at position `i` is
its own flag or-ed with "some old article with this ID is read", wherever that old
article stands among its duplicates; so the article is read when the last old
article with its ID is read, and also when an earlier one is. -/
theorem merge_duplicate_ids (oldFeed newFeed : Feed) (i : Nat) (n : Item)
    (hn : newFeed.Items[i]? = some n) :
    ((merge oldFeed newFeed).Items[i]?).map (fun r => r.Read)
        = some (n.Read || oldFeed.Items.any (fun o => o.ID == n.ID && o.Read)) ∧
    (∀ l, oldFeed.Items.reverse.find? (fun o => o.ID == n.ID) = some l → l.Read = true →
      ((merge oldFeed newFeed).Items[i]?).map (fun r => r.Read) = some true) := by
  have hany : oldFeed.Items.any (fun o => o.Read && o.ID == n.ID)
      = oldFeed.Items.any (fun o => o.ID == n.ID && o.Read) := by
    congr 1
    funext o
    exact Bool.and_comm _ _
  have h1 : ((merge oldFeed newFeed).Items[i]?).map (fun r => r.Read)
      = some (n.Read || oldFeed.Items.any (fun o => o.ID == n.ID && o.Read)) := by
    rw [merge_getElem?, hn, Option.map_some', Option.map_some', hany]
    cases hc : oldFeed.Items.any (fun o => o.ID == n.ID && o.Read) <;> simp
  refine ⟨h1, ?_⟩
  intro l hl hread
  rw [h1]
  have hmem : l ∈ oldFeed.Items := List.mem_reverse.mp (List.mem_of_find?_eq_some hl)
  have hid : (l.ID == n.ID) = true := by
    have := List.find?_some hl
    simpa using this
  have : oldFeed.Items.any (fun o => o.ID == n.ID && o.Read) = true :=
    List.any_eq_true.mpr ⟨l, hmem, by simp [hid, hread]⟩
  simp [this]

/-- The old feed has A twice, unread then read; the fetched A becomes read. -/
theorem merge_duplicate_ids_witness :
    ((merge (sampleFeed [sampleItem "A" false, sampleItem "A" true])
        (sampleFeed [sampleItem "A" false])).Items[0]?).map (fun r => r.Read) = some true :=
  (merge_duplicate_ids (sampleFeed [sampleItem "A" false, sampleItem "A" true])
    (sampleFeed [sampleItem "A" false]) 0 (sampleItem "A" false) rfl).2
    (sampleItem "A" true) (by decide) rfl

/-- C10 as stated fails: the old feed has A twice, read then unread; the last
old A is unread, yet the merge marks the fetched A read. -/
theorem merge_duplicate_ids_counterexample :
    ∃ l n,
      1 < ((sampleFeed [sampleItem "A" true, sampleItem "A" false]).Items.filter
            (fun o => o.ID == n.ID)).length ∧
      (sampleFeed [sampleItem "A" true, sampleItem "A" false]).Items.reverse.find?
          (fun o => o.ID == n.ID) = some l ∧
      n ∈ (merge (sampleFeed [sampleItem "A" true, sampleItem "A" false])
            (sampleFeed [sampleItem "A" false])).Items ∧
      n.Read ≠ l.Read :=
  ⟨sampleItem "A" false, sampleItem "A" true, by decide, by decide, by decide, by decide⟩

/-! ## Properties of the fetch -/

theorem convertItem_id (md5Sum : Bytes → Bytes) (clock : Nat → Time) (n : Nat) (gitem : GoItem) :
    (convertItem md5Sum clock n gitem).1.ID = generateID md5Sum (gitem.GUID ++ gitem.Link) :=
  rfl

theorem convertItems_ids (md5Sum : Bytes → Bytes) (clock : Nat → Time) (n : Nat)
    (gitems : List GoItem) (items : List Item) :
    (convertItems md5Sum clock n gitems items).map (fun it => it.ID)
      = items.map (fun it => it.ID)
        ++ gitems.map (fun g => generateID md5Sum (g.GUID ++ g.Link)) := by
  induction gitems generalizing n items with
  | nil => simp [convertItems]
  | cons gitem rest ih =>
    unfold convertItems
    rw [ih]
    simp [convertItem_id]

/-- What a successful fetch returns, in terms of the parsed document. -/
theorem FetchFeed_ok (md5Sum : Bytes → Bytes) (parseURL : String → Except Error GoFeed)
    (clock : Nat → Time) (url : String) (feed : Feed)
    (h : FetchFeed md5Sum parseURL clock url = .ok feed) :
    feed.ID = generateID md5Sum url ∧ feed.URL = url ∧
      ∃ gfeed, parseURL url = .ok gfeed ∧
        feed.Items.map (fun it => it.ID)
          = gfeed.Items.map (fun g => generateID md5Sum (g.GUID ++ g.Link)) := by
  unfold FetchFeed at h
  split at h
  · cases h
  · rename_i gfeed hparse
    cases h
    exact ⟨rfl, rfl, gfeed, hparse, by simp [convertItems_ids]⟩

/-- A fetch succeeds exactly as the parser does. -/
theorem FetchFeed_of_parse (md5Sum : Bytes → Bytes) (parseURL : String → Except Error GoFeed)
    (clock : Nat → Time) (url : String) (gfeed : GoFeed) (h : parseURL url = .ok gfeed) :
    ∃ feed, FetchFeed md5Sum parseURL clock url = .ok feed := by
  unfold FetchFeed
  simp only [h]
  exact ⟨_, rfl⟩

/-- C9: whenever the parser answers with a document, `FetchFeed url` returns a feed
whose ID is `generateID url` and whose i-th article has the ID
`generateID (guid_i ++ link_i)`. So two fetches of one URL agree on the feed ID
whatever the two documents hold, entries with the same GUID and link get the same
article ID, and `UpdateFeed old` returns a feed with the URL of `old`, and with its
ID when that is `generateID old.URL`. -/
theorem FetchFeed_identity (md5Sum : Bytes → Bytes)
    (parse1 parse2 : String → Except Error GoFeed) (clock1 clock2 : Nat → Time)
    (url : String) (gfeed1 gfeed2 : GoFeed)
    (hp1 : parse1 url = .ok gfeed1) (hp2 : parse2 url = .ok gfeed2) :
    ∃ feed1 feed2,
      FetchFeed md5Sum parse1 clock1 url = .ok feed1 ∧
      FetchFeed md5Sum parse2 clock2 url = .ok feed2 ∧
      feed1.ID = generateID md5Sum url ∧
      feed1.Items.map (fun it => it.ID)
        = gfeed1.Items.map (fun g => generateID md5Sum (g.GUID ++ g.Link)) ∧
      feed1.ID = feed2.ID ∧
      (∀ (i j : Nat) (e1 e2 : GoItem),
        gfeed1.Items[i]? = some e1 → gfeed2.Items[j]? = some e2 →
        e1.GUID = e2.GUID → e1.Link = e2.Link →
        (feed1.Items[i]?).map (fun it => it.ID) = (feed2.Items[j]?).map (fun it => it.ID)) ∧
      (∀ oldFeed : Feed, oldFeed.URL = url →
        ∃ newFeed, UpdateFeed md5Sum parse1 clock1 oldFeed = .ok newFeed ∧
          newFeed.URL = oldFeed.URL ∧
          (oldFeed.ID = generateID md5Sum oldFeed.URL → newFeed.ID = oldFeed.ID)) := by
  obtain ⟨feed1, h1⟩ := FetchFeed_of_parse md5Sum parse1 clock1 url gfeed1 hp1
  obtain ⟨feed2, h2⟩ := FetchFeed_of_parse md5Sum parse2 clock2 url gfeed2 hp2
  obtain ⟨hid1, hurl1, g1, hg1, hitems1⟩ := FetchFeed_ok md5Sum parse1 clock1 url feed1 h1
  obtain ⟨hid2, _, g2, hg2, hitems2⟩ := FetchFeed_ok md5Sum parse2 clock2 url feed2 h2
  have e1 : gfeed1 = g1 := Except.ok.inj (hp1.symm.trans hg1)
  have e2 : gfeed2 = g2 := Except.ok.inj (hp2.symm.trans hg2)
  subst e1
  subst e2
  refine ⟨feed1, feed2, h1, h2, hid1, hitems1, by rw [hid1, hid2], ?_, ?_⟩
  · intro i j e1 e2 he1 he2 hguid hlink
    have k1 := congrArg (fun l => l[i]?) hitems1
    have k2 := congrArg (fun l => l[j]?) hitems2
    simp only [List.getElem?_map] at k1 k2
    rw [k1, k2, he1, he2]
    simp [hguid, hlink]
  · intro oldFeed hurl
    refine ⟨merge oldFeed feed1, ?_, ?_, ?_⟩
    · unfold UpdateFeed
      rw [hurl]
      simp only [h1]
    · rw [hurl]
      exact hurl1
    · intro hold
      rw [hold, hurl]
      exact hid1

/-- Two fetches of one URL, the first of a document with an entry and the second of
an empty document: both succeed and give the same feed ID. -/
theorem FetchFeed_identity_witness :
    ∃ feed1 feed2,
      FetchFeed sampleDigest
        (fun _ => .ok (sampleDocument [sampleEntry "guid-1" "https://example.org/1"]))
        sampleClock "https://example.org/rss" = .ok feed1 ∧
      FetchFeed sampleDigest (fun _ => .ok (sampleDocument [])) sampleClock
        "https://example.org/rss" = .ok feed2 ∧
      feed1.ID = feed2.ID :=
  have h := FetchFeed_identity sampleDigest
    (fun _ => .ok (sampleDocument [sampleEntry "guid-1" "https://example.org/1"]))
    (fun _ => .ok (sampleDocument [])) sampleClock sampleClock "https://example.org/rss"
    (sampleDocument [sampleEntry "guid-1" "https://example.org/1"]) (sampleDocument []) rfl rfl
  h.elim fun feed1 h1 => h1.elim fun feed2 h2 => ⟨feed1, feed2, h2.1, h2.2.1, h2.2.2.2.2.1⟩

/-! ## Properties of the store -/

theorem ReadFile_WriteFile (fs : FileSystem) (path : String) (data : Bytes)
    (h : (WriteFile fs path data).1 = none) :
    ReadFile (WriteFile fs path data).2 path = .ok data := by
  unfold WriteFile at h ⊢
  by_cases hro : path ∈ fs.readOnly
  · rw [if_pos hro] at h
    cases h
  · rw [if_neg hro]
    simp [ReadFile, List.lookup_cons]

theorem WriteFile_ok (fs : FileSystem) (path : String) (data : Bytes)
    (h : path ∉ fs.readOnly) : (WriteFile fs path data).1 = none := by
  unfold WriteFile
  rw [if_neg h]

theorem WriteFile_readOnly (fs : FileSystem) (path : String) (data : Bytes) :
    (WriteFile fs path data).2.readOnly = fs.readOnly := by
  unfold WriteFile
  split <;> rfl

theorem WriteFile_error (fs : FileSystem) (path : String) (data : Bytes)
    (h : (WriteFile fs path data).1 ≠ none) : (WriteFile fs path data).2 = fs := by
  unfold WriteFile at h ⊢
  by_cases hro : path ∈ fs.readOnly
  · rw [if_pos hro]
  · rw [if_neg hro] at h
    exact absurd rfl h

/-- A save that reports no error had a non-empty ID, encoded the stamped feed and
left the encoding in the record file. -/
theorem SaveFeed_ok (lib : Lib) (s : FileStorage) (now : Time) (feed : Feed) (fs : FileSystem)
    (h : (s.SaveFeed lib now feed fs).err = none) :
    feed.ID ≠ "" ∧ ∃ data, lib.Marshal { feed with LastUpdated := now } = .ok data ∧
      ReadFile (s.SaveFeed lib now feed fs).fs (s.recordPath lib feed.ID) = .ok data := by
  unfold FileStorage.SaveFeed at h ⊢
  by_cases hid : feed.ID = ""
  · rw [if_pos hid] at h
    cases h
  · refine ⟨hid, ?_⟩
    rw [if_neg hid] at h ⊢
    cases hm : lib.Marshal { feed with LastUpdated := now } with
    | error err =>
      simp only [hm] at h
      cases h
    | ok data =>
      simp only [hm] at h ⊢
      exact ⟨data, rfl, ReadFile_WriteFile _ _ _ h⟩

/-- A save of a feed with an ID, that the encoder accepts, to a writable record file
reports no error. -/
theorem SaveFeed_succeeds (lib : Lib) (s : FileStorage) (now : Time) (feed : Feed)
    (fs : FileSystem) (data : Bytes) (hid : feed.ID ≠ "")
    (hm : lib.Marshal { feed with LastUpdated := now } = .ok data)
    (hw : s.recordPath lib feed.ID ∉ fs.readOnly) :
    (s.SaveFeed lib now feed fs).err = none := by
  unfold FileStorage.SaveFeed
  rw [if_neg hid]
  simp only [hm]
  exact WriteFile_ok _ _ _ hw

/-- A save that reports an error leaves the file system as it was. -/
theorem SaveFeed_error (lib : Lib) (s : FileStorage) (now : Time) (feed : Feed)
    (fs : FileSystem) (h : (s.SaveFeed lib now feed fs).err ≠ none) :
    (s.SaveFeed lib now feed fs).fs = fs := by
  unfold FileStorage.SaveFeed at h ⊢
  by_cases hid : feed.ID = ""
  · rw [if_pos hid]
  · rw [if_neg hid] at h ⊢
    cases hm : lib.Marshal { feed with LastUpdated := now } with
    | error err => simp only [hm]
    | ok data =>
      simp only [hm] at h ⊢
      exact WriteFile_error _ _ _ h

theorem SaveFeed_readOnly (lib : Lib) (s : FileStorage) (now : Time) (feed : Feed)
    (fs : FileSystem) : (s.SaveFeed lib now feed fs).fs.readOnly = fs.readOnly := by
  unfold FileStorage.SaveFeed
  by_cases hid : feed.ID = ""
  · rw [if_pos hid]
  · rw [if_neg hid]
    cases hm : lib.Marshal { feed with LastUpdated := now } with
    | error err => simp only [hm]
    | ok data =>
      simp only [hm]
      exact WriteFile_readOnly _ _ _

/-- Reading a record back, given what the record file holds. -/
theorem GetFeedByID_of_ReadFile (lib : Lib) (s : FileStorage) (id : String) (fs : FileSystem)
    (data : Bytes) (feed : Feed) (hr : ReadFile fs (s.recordPath lib id) = .ok data)
    (hu : lib.Unmarshal data = .ok feed) : s.GetFeedByID lib id fs = .ok feed := by
  unfold FileStorage.GetFeedByID
  unfold FileStorage.recordPath at hr
  simp only [hr, hu]

/-- What the book codec reads is what it wrote. -/
theorem bookUnmarshal_bookMarshal (book : List Feed) (feed : Feed) (data : Bytes)
    (h : bookMarshal book feed = .ok data) : bookUnmarshal book data = .ok feed := by
  unfold bookMarshal at h
  unfold bookUnmarshal
  by_cases hmem : feed ∈ book
  · rw [if_pos hmem] at h
    cases h
    have hlt : book.indexOf feed < book.length := List.indexOf_lt_length.mpr hmem
    simp [List.getElem?_eq_getElem hlt]
  · rw [if_neg hmem] at h
    cases h

theorem bookUnmarshal_mem (book : List Feed) (feed : Feed) (data : Bytes)
    (h : bookUnmarshal book data = .ok feed) : feed ∈ book := by
  unfold bookUnmarshal at h
  cases hget : book[data.length]? with
  | none =>
    simp only [hget] at h
    cases h
  | some found =>
    simp only [hget] at h
    cases h
    exact List.getElem?_mem hget

/-- The book codec with JSON times behaves as `encoding/json` does, when the times
of its book have zone offsets of whole minutes. -/
theorem jsonBookLib_readsBack (book : List Feed) (listing : List DirEntry)
    (hbook : ∀ feed ∈ book, ∀ item ∈ feed.Items, Int.tmod item.Published.offset 60 = 0) :
    (jsonBookLib book listing).ReadsBackJSON :=
  ⟨fun feed data h => bookUnmarshal_bookMarshal book (jsonFeed feed) data h,
   fun data feed h => hbook feed (bookUnmarshal_mem book feed data h)⟩

/-- A time whose zone offset is a whole number of minutes is read back as it is. -/
theorem jsonTime_of_whole_minutes (t : Time) (h : Int.tmod t.offset 60 = 0) :
    jsonTime t = t := by
  unfold jsonTime
  rw [h]
  simp

theorem map_jsonTime_of_whole_minutes (items : List Item)
    (h : ∀ item ∈ items, Int.tmod item.Published.offset 60 = 0) :
    items.map (fun item => { item with Published := jsonTime item.Published }) = items := by
  induction items with
  | nil => rfl
  | cons item rest ih =>
    rw [List.map_cons, ih (fun it hit => h it (List.mem_cons_of_mem _ hit)),
      jsonTime_of_whole_minutes _ (h item (List.mem_cons_self _ _))]

/-- Loading a record is decoding what its file holds. -/
theorem GetFeedByID_eq_Unmarshal (lib : Lib) (s : FileStorage) (id : String) (fs : FileSystem)
    (data : Bytes) (hr : ReadFile fs (s.recordPath lib id) = .ok data) :
    s.GetFeedByID lib id fs = lib.Unmarshal data := by
  unfold FileStorage.GetFeedByID
  unfold FileStorage.recordPath at hr
  simp only [hr]
  cases lib.Unmarshal data <;> rfl

/-- C3 (as amended): after a successful `SaveFeed` of a feed with a non-empty ID,
`GetFeedByID` of that ID returns exactly what `json.Unmarshal` decodes from what
`json.Marshal` wrote for the stamped feed. With a library that behaves as
`encoding/json` does, the load succeeds and returns the saved feed in ID, title,
description, URL, image URL and in every article field but `Published`, which comes
back as `jsonTime` gives it; the articles are those saved when every `Published` has
a zone offset of whole minutes. -/
theorem SaveFeed_GetFeedByID (lib : Lib) (s : FileStorage) (now : Time) (feed : Feed)
    (fs : FileSystem) (hid : feed.ID ≠ "")
    (hok : (s.SaveFeed lib now feed fs).err = none) :
    ∃ data, lib.Marshal { feed with LastUpdated := now } = .ok data ∧
      s.GetFeedByID lib feed.ID (s.SaveFeed lib now feed fs).fs = lib.Unmarshal data ∧
      (lib.ReadsBackJSON →
        ∃ got, s.GetFeedByID lib feed.ID (s.SaveFeed lib now feed fs).fs = .ok got ∧
          got.ID = feed.ID ∧ got.Title = feed.Title ∧ got.Description = feed.Description ∧
          got.URL = feed.URL ∧ got.ImageURL = feed.ImageURL ∧
          got.LastUpdated = jsonTime now ∧
          got.Items
            = feed.Items.map (fun item => { item with Published := jsonTime item.Published }) ∧
          ((∀ item ∈ feed.Items, Int.tmod item.Published.offset 60 = 0) →
            got.Items = feed.Items)) := by
  have _ := hid
  obtain ⟨_, data, hm, hr⟩ := SaveFeed_ok lib s now feed fs hok
  have hget := GetFeedByID_eq_Unmarshal lib s feed.ID _ data hr
  refine ⟨data, hm, hget, fun hjson => ?_⟩
  refine ⟨jsonFeed { feed with LastUpdated := now }, ?_, rfl, rfl, rfl, rfl, rfl, rfl, rfl, ?_⟩
  · rw [hget]
    exact hjson.1 _ _ hm
  · intro hwhole
    exact map_jsonTime_of_whole_minutes feed.Items hwhole

/-- A feed with two articles, both published in UTC, is saved into an empty store
and read back: the articles are those saved. -/
theorem SaveFeed_GetFeedByID_witness :
    ∃ got, sampleStorage.GetFeedByID
        (jsonBookLib [sampleStamped 1700000123
          (sampleFeed [sampleItem "A" true, sampleItem "B" false])] [])
        (sampleFeed [sampleItem "A" true, sampleItem "B" false]).ID
        (sampleStorage.SaveFeed
          (jsonBookLib [sampleStamped 1700000123
            (sampleFeed [sampleItem "A" true, sampleItem "B" false])] [])
          1700000123 (sampleFeed [sampleItem "A" true, sampleItem "B" false])
          (sampleFiles [])).fs = .ok got ∧
      got.Title = (sampleFeed [sampleItem "A" true, sampleItem "B" false]).Title ∧
      got.Items = (sampleFeed [sampleItem "A" true, sampleItem "B" false]).Items :=
  (SaveFeed_GetFeedByID
    (jsonBookLib [sampleStamped 1700000123
      (sampleFeed [sampleItem "A" true, sampleItem "B" false])] [])
    sampleStorage 1700000123 (sampleFeed [sampleItem "A" true, sampleItem "B" false])
    (sampleFiles []) (by decide) (by decide)).elim
    fun _ h => (h.2.2 (jsonBookLib_readsBack _ _ (by decide))).elim
      fun got hgot => ⟨got, hgot.1, hgot.2.2.1, hgot.2.2.2.2.2.2.2.2 (by decide)⟩

/-- C3 as stated fails: a feed whose article was published in a zone 28 seconds
east of UTC is saved and loaded, both without error, and the article comes back
with another `Published`, 28 seconds later and in UTC. -/
theorem SaveFeed_GetFeedByID_counterexample :
    sampleZoned.ID ≠ "" ∧
    (sampleStorage.SaveFeed (jsonBookLib [jsonFeed (sampleStamped 1700000123 sampleZoned)] [])
      1700000123 sampleZoned (sampleFiles [])).err = none ∧
    ∃ got, sampleStorage.GetFeedByID
        (jsonBookLib [jsonFeed (sampleStamped 1700000123 sampleZoned)] []) sampleZoned.ID
        (sampleStorage.SaveFeed
          (jsonBookLib [jsonFeed (sampleStamped 1700000123 sampleZoned)] [])
          1700000123 sampleZoned (sampleFiles [])).fs = .ok got ∧
      got.Items ≠ sampleZoned.Items ∧
      got.Items.map (fun item => item.Published)
        = [{ unixNano := 1700000028000000000, offset := 0 }] :=
  ⟨by decide, by decide, jsonFeed (sampleStamped 1700000123 sampleZoned), rfl, by decide,
    by decide⟩

/-- C5: `SaveFeed` of a feed whose ID is empty returns the validation error and
writes nothing: the file system after the call is the one before it, and the feed
is not stamped. -/
theorem SaveFeed_empty_id (lib : Lib) (s : FileStorage) (now : Time) (feed : Feed)
    (fs : FileSystem) (hid : feed.ID = "") :
    (s.SaveFeed lib now feed fs).err = some "feed ID cannot be empty" ∧
    (s.SaveFeed lib now feed fs).fs = fs ∧
    (s.SaveFeed lib now feed fs).feed = feed := by
  unfold FileStorage.SaveFeed
  rw [if_pos hid]
  exact ⟨rfl, rfl, rfl⟩

/-- A feed without ID is offered to a store that holds one record. -/
theorem SaveFeed_empty_id_witness :
    (sampleStorage.SaveFeed (sampleLib [] []) 1700000123
        { sampleFeed [sampleItem "A" false] with ID := "" }
        (sampleFiles [("data/feed-1.json", [])])).fs
      = sampleFiles [("data/feed-1.json", [])] :=
  (SaveFeed_empty_id (sampleLib [] []) sampleStorage 1700000123
    { sampleFeed [sampleItem "A" false] with ID := "" }
    (sampleFiles [("data/feed-1.json", [])]) rfl).2.1

theorem collectFeeds_eq (lib : Lib) (s : FileStorage) (fs : FileSystem)
    (files : List DirEntry) (feeds : List Feed) :
    FileStorage.collectFeeds lib s fs files feeds
      = feeds ++ files.filterMap (s.recordFeed lib fs) := by
  induction files generalizing feeds with
  | nil => simp [FileStorage.collectFeeds]
  | cons file rest ih =>
    unfold FileStorage.collectFeeds
    rw [List.filterMap_cons]
    by_cases hrec : file.IsDir = false ∧ Ext file.Name = ".json"
    · have hskip : (file.IsDir || Ext file.Name != ".json") = false := by
        simp [hrec.1, hrec.2]
      rw [hskip]
      simp only [Bool.false_eq_true, if_false]
      cases hr : ReadFile fs (lib.Join s.dataDir file.Name) with
      | error err =>
        have hrf : s.recordFeed lib fs file = none := by
          simp [FileStorage.recordFeed, hrec, hr]
        rw [hrf]
        exact ih feeds
      | ok data =>
        dsimp only
        cases hu : lib.Unmarshal data with
        | error err =>
          have hrf : s.recordFeed lib fs file = none := by
            simp [FileStorage.recordFeed, hrec, hr, hu]
          rw [hrf]
          exact ih feeds
        | ok feed =>
          have hrf : s.recordFeed lib fs file = some feed := by
            simp [FileStorage.recordFeed, hrec, hr, hu]
          rw [hrf]
          simpa using ih (feeds ++ [feed])
    · have hskip : (file.IsDir || Ext file.Name != ".json") = true := by
        cases hd : file.IsDir
        · simpa [hd] using hrec
        · simp
      have hrf : s.recordFeed lib fs file = none := by
        simp only [FileStorage.recordFeed, if_neg hrec]
      rw [hskip, hrf]
      exact ih feeds

/-- C6: when the data directory can be listed, `GetAllFeeds` returns no error and
its result is, in the order of the listing, the decoded feed of every entry that is
a regular `.json` file which can be read and deserialized; every other entry is
left out. The call fails only when the listing itself fails. -/
theorem GetAllFeeds_skips_malformed (lib : Lib) (s : FileStorage) (fs : FileSystem)
    (files : List DirEntry) (h : lib.ReadDir fs s.dataDir = .ok files) :
    s.GetAllFeeds lib fs = .ok (files.filterMap (s.recordFeed lib fs)) ∧
    (∀ fs2 err, s.GetAllFeeds lib fs2 = .error err → lib.ReadDir fs2 s.dataDir = .error err) := by
  constructor
  · unfold FileStorage.GetAllFeeds
    simp only [h, collectFeeds_eq, List.nil_append]
  · intro fs2 err hfail
    unfold FileStorage.GetAllFeeds at hfail
    cases hd : lib.ReadDir fs2 s.dataDir with
    | error e =>
      simp only [hd] at hfail
      cases hfail
      rfl
    | ok l =>
      simp only [hd] at hfail
      cases hfail

/-- A directory with one good record among four other entries: the enumeration
returns the good record alone. -/
theorem GetAllFeeds_skips_malformed_witness :
    sampleStorage.GetAllFeeds (sampleLib [sampleFeed [sampleItem "A" true]] sampleListing)
        (sampleFiles [("data/good.json", []), ("data/bad.json", [1, 1, 1]),
          ("data/notes.txt", []), ("data/sub.json", [])])
      = .ok [sampleFeed [sampleItem "A" true]] :=
  (GetAllFeeds_skips_malformed (sampleLib [sampleFeed [sampleItem "A" true]] sampleListing)
    sampleStorage
    (sampleFiles [("data/good.json", []), ("data/bad.json", [1, 1, 1]),
      ("data/notes.txt", []), ("data/sub.json", [])])
    sampleListing rfl).1.trans (congrArg Except.ok (by decide))

/-! ## Properties of `MarkItemAsRead` -/

theorem markFirst_not_found (itemID : String) (items : List Item)
    (h : ∀ it ∈ items, it.ID ≠ itemID) : markFirst itemID items = (items, false) := by
  induction items with
  | nil => rfl
  | cons item rest ih =>
    unfold markFirst
    rw [if_neg (h item (List.mem_cons_self _ _)),
      ih (fun it hit => h it (List.mem_cons_of_mem _ hit))]

/-- The loop marks the first article with the ID and touches nothing else. -/
theorem markFirst_found (itemID : String) (items : List Item)
    (h : ∃ it ∈ items, it.ID = itemID) :
    (markFirst itemID items).2 = true ∧
    ∃ pre x post, items = pre ++ x :: post ∧ (∀ y ∈ pre, y.ID ≠ itemID) ∧ x.ID = itemID ∧
      (markFirst itemID items).1 = pre ++ { x with Read := true } :: post := by
  induction items with
  | nil =>
    obtain ⟨it, hit, _⟩ := h
    cases hit
  | cons item rest ih =>
    unfold markFirst
    by_cases hid : item.ID = itemID
    · rw [if_pos hid]
      exact ⟨rfl, [], item, rest, rfl, by simp, hid, rfl⟩
    · rw [if_neg hid]
      have hrest : ∃ it ∈ rest, it.ID = itemID := by
        obtain ⟨it, hit, hitid⟩ := h
        rcases List.mem_cons.mp hit with heq | hmem
        · exact absurd (heq ▸ hitid) hid
        · exact ⟨it, hmem, hitid⟩
      obtain ⟨hfound, pre, x, post, hsplit, hpre, hx, hmarked⟩ := ih hrest
      refine ⟨hfound, item :: pre, x, post, by rw [hsplit]; rfl, ?_, hx,
        by simp only [hmarked, List.cons_append]⟩
      intro y hy
      rcases List.mem_cons.mp hy with heq | hmem
      · rw [heq]
        exact hid
      · exact hpre y hmem

theorem markFirst_found_iff (itemID : String) (items : List Item) :
    (markFirst itemID items).2 = true ↔ ∃ it ∈ items, it.ID = itemID := by
  constructor
  · intro hfound
    by_contra hnone
    have hall : ∀ it ∈ items, it.ID ≠ itemID := fun it hit hid => hnone ⟨it, hit, hid⟩
    rw [markFirst_not_found itemID items hall] at hfound
    cases hfound
  · intro h
    exact (markFirst_found itemID items h).1

/-- Running the loop on its own result changes nothing. -/
theorem markFirst_again (itemID : String) (items : List Item) :
    markFirst itemID (markFirst itemID items).1 = markFirst itemID items := by
  induction items with
  | nil => rfl
  | cons item rest ih =>
    by_cases hid : item.ID = itemID
    · have h1 : markFirst itemID (item :: rest) = ({ item with Read := true } :: rest, true) := by
        unfold markFirst
        rw [if_pos hid]
      rw [h1]
      unfold markFirst
      rw [if_pos hid]
    · have h1 : markFirst itemID (item :: rest)
          = (item :: (markFirst itemID rest).1, (markFirst itemID rest).2) := by
        conv_lhs => unfold markFirst
        rw [if_neg hid]
      rw [h1]
      conv_lhs => unfold markFirst
      rw [if_neg hid, ih]

/-- After the loop the first article with the ID, if there is one, is read. -/
theorem markFirst_find (itemID : String) (items : List Item)
    (h : (markFirst itemID items).2 = true) :
    ((markFirst itemID items).1.find? (fun it => it.ID == itemID)).map (fun it => it.Read)
      = some true := by
  induction items with
  | nil => cases h
  | cons item rest ih =>
    by_cases hid : item.ID = itemID
    · have h1 : markFirst itemID (item :: rest) = ({ item with Read := true } :: rest, true) := by
        unfold markFirst
        rw [if_pos hid]
      rw [h1]
      simp [List.find?_cons, hid]
    · have h1 : markFirst itemID (item :: rest)
          = (item :: (markFirst itemID rest).1, (markFirst itemID rest).2) := by
        conv_lhs => unfold markFirst
        rw [if_neg hid]
      rw [h1] at h ⊢
      have hbeq : (item.ID == itemID) = false := by simpa using hid
      rw [List.find?_cons, hbeq]
      exact ih h

theorem MarkItemAsRead_no_feed (lib : Lib) (s : FileStorage) (now : Time)
    (feedID itemID : String) (fs : FileSystem) (err : Error)
    (hget : s.GetFeedByID lib feedID fs = .error err) :
    s.MarkItemAsRead lib now feedID itemID fs = (some err, fs) := by
  unfold FileStorage.MarkItemAsRead
  simp only [hget]

theorem MarkItemAsRead_no_item (lib : Lib) (s : FileStorage) (now : Time)
    (feedID itemID : String) (fs : FileSystem) (feed : Feed)
    (hget : s.GetFeedByID lib feedID fs = .ok feed)
    (hfound : (markFirst itemID feed.Items).2 = false) :
    s.MarkItemAsRead lib now feedID itemID fs = (some "item not found", fs) := by
  unfold FileStorage.MarkItemAsRead
  simp only [hget, hfound, Bool.not_false, if_true]

theorem MarkItemAsRead_item (lib : Lib) (s : FileStorage) (now : Time)
    (feedID itemID : String) (fs : FileSystem) (feed : Feed)
    (hget : s.GetFeedByID lib feedID fs = .ok feed)
    (hfound : (markFirst itemID feed.Items).2 = true) :
    s.MarkItemAsRead lib now feedID itemID fs
      = ((s.SaveFeed lib now { feed with Items := (markFirst itemID feed.Items).1 } fs).err,
         (s.SaveFeed lib now { feed with Items := (markFirst itemID feed.Items).1 } fs).fs) := by
  unfold FileStorage.MarkItemAsRead
  simp only [hget, hfound, Bool.not_true, Bool.false_eq_true, if_false]

theorem lookup_filter_ne (files : List (String × Bytes)) (p path : String) (h : path ≠ p) :
    (files.filter (fun e => e.1 != p)).lookup path = files.lookup path := by
  induction files with
  | nil => rfl
  | cons e rest ih =>
    obtain ⟨k, v⟩ := e
    by_cases hk : k = p
    · have hdrop : ((k, v).1 != p) = false := by simp [hk]
      have hne : (path == k) = false := by
        rw [hk]
        simpa using h
      rw [List.filter_cons, hdrop, List.lookup_cons, hne]
      simpa using ih
    · have hkeep : ((k, v).1 != p) = true := by simpa using hk
      rw [List.filter_cons, hkeep]
      simp only [if_true, List.lookup_cons, ih]

/-- A write leaves every other file as it was. -/
theorem ReadFile_WriteFile_other (fs : FileSystem) (p : String) (data : Bytes) (path : String)
    (h : path ≠ p) : ReadFile (WriteFile fs p data).2 path = ReadFile fs path := by
  unfold WriteFile
  by_cases hro : p ∈ fs.readOnly
  · rw [if_pos hro]
  · rw [if_neg hro]
    have hb : (path == p) = false := by simpa using h
    simp only [ReadFile, List.lookup_cons, hb, lookup_filter_ne fs.files p path h]

/-- A save reports no error exactly when the feed has an ID, the encoder accepts the
stamped feed and the write to the record file is accepted. -/
theorem SaveFeed_ok_iff (lib : Lib) (s : FileStorage) (now : Time) (feed : Feed)
    (fs : FileSystem) :
    (s.SaveFeed lib now feed fs).err = none ↔
      feed.ID ≠ "" ∧ (∃ data, lib.Marshal { feed with LastUpdated := now } = .ok data) ∧
        s.recordPath lib feed.ID ∉ fs.readOnly := by
  constructor
  · intro h
    obtain ⟨hid, data, hm, _⟩ := SaveFeed_ok lib s now feed fs h
    refine ⟨hid, ⟨data, hm⟩, ?_⟩
    intro hro
    unfold FileStorage.SaveFeed at h
    rw [if_neg hid] at h
    simp only [hm] at h
    unfold WriteFile at h
    rw [if_pos (show lib.Join s.dataDir (feed.ID ++ ".json") ∈ fs.readOnly from hro)] at h
    cases h
  · rintro ⟨hid, ⟨data, hm⟩, hw⟩
    exact SaveFeed_succeeds lib s now feed fs data hid hm hw

/-- A save leaves every file but the record file of the feed as it was. -/
theorem SaveFeed_other (lib : Lib) (s : FileStorage) (now : Time) (feed : Feed)
    (fs : FileSystem) (path : String) (h : path ≠ s.recordPath lib feed.ID) :
    ReadFile (s.SaveFeed lib now feed fs).fs path = ReadFile fs path := by
  unfold FileStorage.SaveFeed
  by_cases hid : feed.ID = ""
  · rw [if_pos hid]
  · rw [if_neg hid]
    cases hm : lib.Marshal { feed with LastUpdated := now } with
    | error err => simp only [hm]
    | ok data =>
      simp only [hm]
      exact ReadFile_WriteFile_other _ _ _ _ h

/-- A loaded feed is one the decoder produced. -/
theorem GetFeedByID_decoded (lib : Lib) (s : FileStorage) (id : String) (fs : FileSystem)
    (feed : Feed) (h : s.GetFeedByID lib id fs = .ok feed) :
    ∃ data, lib.Unmarshal data = .ok feed := by
  unfold FileStorage.GetFeedByID at h
  cases hr : ReadFile fs (lib.Join s.dataDir (id ++ ".json")) with
  | error err =>
    simp only [hr] at h
    cases h
  | ok data =>
    simp only [hr] at h
    cases hu : lib.Unmarshal data with
    | error err =>
      simp only [hu] at h
      cases h
    | ok found =>
      simp only [hu] at h
      cases h
      exact ⟨data, hu⟩

/-- Marking leaves `Published` alone: when the zone offsets of the articles are
whole minutes before the loop, they are after it. -/
theorem markFirst_whole_minutes (itemID : String) (items : List Item)
    (h : ∀ item ∈ items, Int.tmod item.Published.offset 60 = 0) :
    ∀ item ∈ (markFirst itemID items).1, Int.tmod item.Published.offset 60 = 0 := by
  induction items with
  | nil =>
    intro item hitem
    cases hitem
  | cons first rest ih =>
    intro item hitem
    unfold markFirst at hitem
    by_cases hid : first.ID = itemID
    · rw [if_pos hid] at hitem
      rcases List.mem_cons.mp hitem with heq | hmem
      · rw [heq]
        exact h first (List.mem_cons_self _ _)
      · exact h item (List.mem_cons_of_mem _ hmem)
    · rw [if_neg hid] at hitem
      rcases List.mem_cons.mp hitem with heq | hmem
      · rw [heq]
        exact h first (List.mem_cons_self _ _)
      · exact ih (fun it hit => h it (List.mem_cons_of_mem _ hit)) item hmem

/-- What a marking that reports no error leaves in the store: the record file of
the loaded feed holds the encoding of the marked and stamped feed, no other file
has changed, and the same writes are refused as before. -/
theorem MarkItemAsRead_written (lib : Lib) (s : FileStorage) (now : Time)
    (feedID itemID : String) (fs : FileSystem) (feed : Feed)
    (hget : s.GetFeedByID lib feedID fs = .ok feed)
    (hitem : ∃ it ∈ feed.Items, it.ID = itemID)
    (hok : (s.MarkItemAsRead lib now feedID itemID fs).1 = none) :
    feed.ID ≠ "" ∧ s.recordPath lib feed.ID ∉ fs.readOnly ∧
    (s.MarkItemAsRead lib now feedID itemID fs).2.readOnly = fs.readOnly ∧
    (∃ data, lib.Marshal
        { feed with Items := (markFirst itemID feed.Items).1, LastUpdated := now } = .ok data ∧
      ReadFile (s.MarkItemAsRead lib now feedID itemID fs).2 (s.recordPath lib feed.ID)
        = .ok data) ∧
    (∀ path, path ≠ s.recordPath lib feed.ID →
      ReadFile (s.MarkItemAsRead lib now feedID itemID fs).2 path = ReadFile fs path) := by
  have hfound := (markFirst_found_iff itemID feed.Items).mpr hitem
  rw [MarkItemAsRead_item lib s now feedID itemID fs feed hget hfound] at hok ⊢
  obtain ⟨hid, _, hw⟩ := (SaveFeed_ok_iff lib s now _ fs).mp hok
  obtain ⟨_, data, hm, hread⟩ := SaveFeed_ok lib s now _ fs hok
  exact ⟨hid, hw, SaveFeed_readOnly _ _ _ _ _, ⟨data, hm, hread⟩,
    fun path hpath => SaveFeed_other lib s now _ fs path hpath⟩

/-- With a library that behaves as `encoding/json` does and a record filed under
its own ID, the feed loaded after a marking that reports no error is the feed
loaded before with the loop applied and the stamp read back. -/
theorem MarkItemAsRead_readback (lib : Lib) (s : FileStorage) (now : Time)
    (feedID itemID : String) (fs : FileSystem) (feed : Feed)
    (hget : s.GetFeedByID lib feedID fs = .ok feed)
    (hitem : ∃ it ∈ feed.Items, it.ID = itemID)
    (hok : (s.MarkItemAsRead lib now feedID itemID fs).1 = none)
    (hjson : lib.ReadsBackJSON)
    (hkey : s.recordPath lib feed.ID = s.recordPath lib feedID) :
    s.GetFeedByID lib feedID (s.MarkItemAsRead lib now feedID itemID fs).2
      = .ok { feed with
                Items := (markFirst itemID feed.Items).1, LastUpdated := jsonTime now } := by
  obtain ⟨_, _, _, ⟨data, hm, hread⟩, _⟩ :=
    MarkItemAsRead_written lib s now feedID itemID fs feed hget hitem hok
  rw [hkey] at hread
  rw [GetFeedByID_eq_Unmarshal lib s feedID _ data hread, hjson.1 _ _ hm]
  obtain ⟨data0, hdecoded⟩ := GetFeedByID_decoded lib s feedID fs feed hget
  have hwhole := markFirst_whole_minutes itemID feed.Items (hjson.2 data0 feed hdecoded)
  unfold jsonFeed
  simp only [map_jsonTime_of_whole_minutes _ hwhole]

theorem sampleStore_get :
    sampleStorage.GetFeedByID (jsonBookLib sampleBook []) "feed-1" sampleStore
      = .ok sampleStored := by
  rfl

theorem sampleBook_readsBack : (jsonBookLib sampleBook []).ReadsBackJSON :=
  jsonBookLib_readsBack sampleBook [] (by decide)

/-- C4 (as amended): `MarkItemAsRead feedID itemID` returns the error of the load
when no feed can be loaded from `feedID`, and "item not found" when the loaded feed
has no article with the ID `itemID`. Otherwise it is the save of the loaded feed
with `Read = true` in the first article whose ID is `itemID`, every other article,
later ones with the same ID among them, and every other field unchanged: it returns
no error exactly when the loaded feed has a non-empty ID, the encoder accepts the
marked and stamped feed and the write is accepted; the record file of the loaded
feed's own ID then holds that encoding and no other file has changed; and with a
library that behaves as `encoding/json` does and a record filed under its own ID,
the feed loaded from `feedID` afterwards is that marked feed with the stamp read
back. Whenever an error is returned the file system is unchanged. -/
theorem MarkItemAsRead_spec (lib : Lib) (s : FileStorage) (now : Time)
    (feedID itemID : String) (fs : FileSystem) :
    (∀ err, s.GetFeedByID lib feedID fs = .error err →
      s.MarkItemAsRead lib now feedID itemID fs = (some err, fs)) ∧
    (∀ feed, s.GetFeedByID lib feedID fs = .ok feed → (∀ it ∈ feed.Items, it.ID ≠ itemID) →
      s.MarkItemAsRead lib now feedID itemID fs = (some "item not found", fs)) ∧
    (∀ feed, s.GetFeedByID lib feedID fs = .ok feed → (∃ it ∈ feed.Items, it.ID = itemID) →
      ∃ pre x post, feed.Items = pre ++ x :: post ∧ (∀ y ∈ pre, y.ID ≠ itemID) ∧
        x.ID = itemID ∧
        ((s.MarkItemAsRead lib now feedID itemID fs).1 = none ↔
          feed.ID ≠ "" ∧
          (∃ data, lib.Marshal
            { feed with
                Items := pre ++ { x with Read := true } :: post, LastUpdated := now }
              = .ok data) ∧
          s.recordPath lib feed.ID ∉ fs.readOnly) ∧
        ((s.MarkItemAsRead lib now feedID itemID fs).1 = none →
          (∃ data, lib.Marshal
              { feed with
                  Items := pre ++ { x with Read := true } :: post, LastUpdated := now }
                = .ok data ∧
            ReadFile (s.MarkItemAsRead lib now feedID itemID fs).2
              (s.recordPath lib feed.ID) = .ok data) ∧
          (∀ path, path ≠ s.recordPath lib feed.ID →
            ReadFile (s.MarkItemAsRead lib now feedID itemID fs).2 path
              = ReadFile fs path)) ∧
        ((s.MarkItemAsRead lib now feedID itemID fs).1 = none → lib.ReadsBackJSON →
          s.recordPath lib feed.ID = s.recordPath lib feedID →
          s.GetFeedByID lib feedID (s.MarkItemAsRead lib now feedID itemID fs).2
            = .ok { feed with
                      Items := pre ++ { x with Read := true } :: post,
                      LastUpdated := jsonTime now })) ∧
    ((s.MarkItemAsRead lib now feedID itemID fs).1 ≠ none →
      (s.MarkItemAsRead lib now feedID itemID fs).2 = fs) := by
  refine ⟨fun err hget => MarkItemAsRead_no_feed lib s now feedID itemID fs err hget, ?_, ?_, ?_⟩
  · intro feed hget hall
    exact MarkItemAsRead_no_item lib s now feedID itemID fs feed hget
      (by rw [markFirst_not_found itemID feed.Items hall])
  · intro feed hget hitem
    have hfound := (markFirst_found_iff itemID feed.Items).mpr hitem
    obtain ⟨_, pre, x, post, hsplit, hpre, hx, hmarked⟩ :=
      markFirst_found itemID feed.Items hitem
    refine ⟨pre, x, post, hsplit, hpre, hx, ?_, ?_, ?_⟩
    · rw [MarkItemAsRead_item lib s now feedID itemID fs feed hget hfound, ← hmarked]
      exact SaveFeed_ok_iff lib s now _ fs
    · intro hok
      obtain ⟨_, _, _, hdata, hother⟩ :=
        MarkItemAsRead_written lib s now feedID itemID fs feed hget hitem hok
      rw [hmarked] at hdata
      exact ⟨hdata, hother⟩
    · intro hok hjson hkey
      rw [MarkItemAsRead_readback lib s now feedID itemID fs feed hget hitem hok hjson hkey,
        hmarked]
  · intro herr
    cases hget : s.GetFeedByID lib feedID fs with
    | error err => rw [MarkItemAsRead_no_feed lib s now feedID itemID fs err hget]
    | ok feed =>
      by_cases hitem : ∃ it ∈ feed.Items, it.ID = itemID
      · have hfound := (markFirst_found_iff itemID feed.Items).mpr hitem
        rw [MarkItemAsRead_item lib s now feedID itemID fs feed hget hfound] at herr ⊢
        exact SaveFeed_error lib s now _ fs herr
      · have hall : ∀ it ∈ feed.Items, it.ID ≠ itemID :=
          fun it hit hid => hitem ⟨it, hit, hid⟩
        rw [MarkItemAsRead_no_item lib s now feedID itemID fs feed hget
          (by rw [markFirst_not_found itemID feed.Items hall])]

/-- The first "B" of a stored feed with two is marked: the call returns no error
and the record afterwards has the first "B" read and the second as it was. -/
theorem MarkItemAsRead_spec_witness :
    ∃ pre x post, sampleStored.Items = pre ++ x :: post ∧ (∀ y ∈ pre, y.ID ≠ "B") ∧
      x.ID = "B" ∧
      (sampleStorage.MarkItemAsRead (jsonBookLib sampleBook []) 1700000123 "feed-1" "B"
        sampleStore).1 = none ∧
      sampleStorage.GetFeedByID (jsonBookLib sampleBook []) "feed-1"
          (sampleStorage.MarkItemAsRead (jsonBookLib sampleBook []) 1700000123 "feed-1" "B"
            sampleStore).2
        = .ok { sampleStored with
                  Items := pre ++ { x with Read := true } :: post,
                  LastUpdated := jsonTime 1700000123 } :=
  ((MarkItemAsRead_spec (jsonBookLib sampleBook []) sampleStorage 1700000123 "feed-1" "B"
    sampleStore).2.2.1 sampleStored sampleStore_get ⟨sampleItem "B" false, by decide, rfl⟩).elim
    fun pre h1 => h1.elim fun x h2 => h2.elim fun post h =>
      ⟨pre, x, post, h.1, h.2.1, h.2.2.1, by decide,
        h.2.2.2.2.2 (by decide) sampleBook_readsBack rfl⟩

/-- C4 as stated fails: the record under "feed-1" carries no ID and has an article
"B"; the feed is stored and has the article, yet the call returns the error of the
save, "feed ID cannot be empty". -/
theorem MarkItemAsRead_spec_counterexample :
    sampleStorage.GetFeedByID (sampleLib [sampleNoID] []) "feed-1" sampleStore
      = .ok sampleNoID ∧
    (∃ it ∈ sampleNoID.Items, it.ID = "B") ∧
    (sampleStorage.MarkItemAsRead (sampleLib [sampleNoID] []) 1700000123 "feed-1" "B"
      sampleStore).1 = some "feed ID cannot be empty" :=
  ⟨rfl, ⟨sampleItem "B" false, by decide, rfl⟩, by decide⟩

/-- C8 (as amended): when `feedID` holds a feed with an article `itemID`, the first
call of `MarkItemAsRead feedID itemID` returns no error, the record is filed under
its own ID and the library behaves as `encoding/json` does, then the article is
read in the feed loaded after the first call; the second call returns no error
exactly when the encoder accepts that feed with the new stamp; and then the feed
loaded after the second call is the feed loaded after the first one but for
`LastUpdated`, so the article is read in it too. -/
theorem MarkItemAsRead_twice (lib : Lib) (s : FileStorage) (now1 now2 : Time)
    (feedID itemID : String) (fs : FileSystem) (feed : Feed)
    (hget : s.GetFeedByID lib feedID fs = .ok feed)
    (hitem : ∃ it ∈ feed.Items, it.ID = itemID)
    (hfirst : (s.MarkItemAsRead lib now1 feedID itemID fs).1 = none)
    (hkey : s.recordPath lib feed.ID = s.recordPath lib feedID)
    (hjson : lib.ReadsBackJSON) :
    ∃ first,
      s.GetFeedByID lib feedID (s.MarkItemAsRead lib now1 feedID itemID fs).2 = .ok first ∧
      (first.Items.find? (fun it => it.ID == itemID)).map (fun it => it.Read) = some true ∧
      ((s.MarkItemAsRead lib now2 feedID itemID
          (s.MarkItemAsRead lib now1 feedID itemID fs).2).1 = none ↔
        ∃ data, lib.Marshal { first with LastUpdated := now2 } = .ok data) ∧
      ((s.MarkItemAsRead lib now2 feedID itemID
          (s.MarkItemAsRead lib now1 feedID itemID fs).2).1 = none →
        ∃ second,
          s.GetFeedByID lib feedID
            (s.MarkItemAsRead lib now2 feedID itemID
              (s.MarkItemAsRead lib now1 feedID itemID fs).2).2 = .ok second ∧
          (second.Items.find? (fun it => it.ID == itemID)).map (fun it => it.Read)
            = some true ∧
          second = { first with LastUpdated := jsonTime now2 }) := by
  have hfound := (markFirst_found_iff itemID feed.Items).mpr hitem
  have hafter1 := MarkItemAsRead_readback lib s now1 feedID itemID fs feed hget hitem hfirst
    hjson hkey
  obtain ⟨hid, hw, hro, _, _⟩ :=
    MarkItemAsRead_written lib s now1 feedID itemID fs feed hget hitem hfirst
  have hread : ((markFirst itemID feed.Items).1.find? (fun it => it.ID == itemID)).map
      (fun it => it.Read) = some true := markFirst_find itemID feed.Items hfound
  have hagain : (markFirst itemID (markFirst itemID feed.Items).1).1
      = (markFirst itemID feed.Items).1 := by rw [markFirst_again]
  have hfound2 : (markFirst itemID (markFirst itemID feed.Items).1).2 = true := by
    rw [markFirst_again]
    exact hfound
  have hitem2 : ∃ it ∈ (markFirst itemID feed.Items).1, it.ID = itemID :=
    (markFirst_found_iff itemID _).mp hfound2
  refine ⟨_, hafter1, hread, ?_, ?_⟩
  · rw [MarkItemAsRead_item lib s now2 feedID itemID _ _ hafter1 hfound2]
    simp only [hagain]
    rw [SaveFeed_ok_iff]
    constructor
    · rintro ⟨_, hm, _⟩
      exact hm
    · intro hm
      exact ⟨hid, hm, by rw [hro]; exact hw⟩
  · intro hsecond
    have hafter2 := MarkItemAsRead_readback lib s now2 feedID itemID _ _ hafter1 hitem2
      hsecond hjson hkey
    simp only [hagain] at hafter2
    exact ⟨_, hafter2, hread, rfl⟩

/-- The first "B" of the stored feed is marked twice, at two different times: the
second call returns no error and changes nothing but the stamp. -/
theorem MarkItemAsRead_twice_witness :
    ∃ first,
      sampleStorage.GetFeedByID (jsonBookLib sampleBook []) "feed-1"
        (sampleStorage.MarkItemAsRead (jsonBookLib sampleBook []) 1700000123 "feed-1" "B"
          sampleStore).2 = .ok first ∧
      (sampleStorage.MarkItemAsRead (jsonBookLib sampleBook []) 1700000456 "feed-1" "B"
        (sampleStorage.MarkItemAsRead (jsonBookLib sampleBook []) 1700000123 "feed-1" "B"
          sampleStore).2).1 = none ∧
      sampleStorage.GetFeedByID (jsonBookLib sampleBook []) "feed-1"
        (sampleStorage.MarkItemAsRead (jsonBookLib sampleBook []) 1700000456 "feed-1" "B"
          (sampleStorage.MarkItemAsRead (jsonBookLib sampleBook []) 1700000123 "feed-1" "B"
            sampleStore).2).2 = .ok { first with LastUpdated := jsonTime 1700000456 } :=
  (MarkItemAsRead_twice (jsonBookLib sampleBook []) sampleStorage 1700000123 1700000456
    "feed-1" "B" sampleStore sampleStored sampleStore_get
    ⟨sampleItem "B" false, by decide, rfl⟩ (by decide) rfl sampleBook_readsBack).elim
    fun first h => ⟨first, h.1, by decide,
      (h.2.2.2 (by decide)).elim fun second hs => hs.2.2 ▸ hs.1⟩

/-- C8 as stated fails: the record under "feed-1" carries no ID and has an unread
article "B"; the first call already returns an error, and the article is still
unread in the feed loaded after it. -/
theorem MarkItemAsRead_twice_counterexample :
    sampleStorage.GetFeedByID (sampleLib [sampleNoID] []) "feed-1" sampleStore
      = .ok sampleNoID ∧
    (∃ it ∈ sampleNoID.Items, it.ID = "B") ∧
    (sampleStorage.MarkItemAsRead (sampleLib [sampleNoID] []) 1700000123 "feed-1" "B"
      sampleStore).1 ≠ none ∧
    ∃ after, sampleStorage.GetFeedByID (sampleLib [sampleNoID] []) "feed-1"
        (sampleStorage.MarkItemAsRead (sampleLib [sampleNoID] []) 1700000123 "feed-1" "B"
          sampleStore).2 = .ok after ∧
      (after.Items.find? (fun it => it.ID == "B")).map (fun it => it.Read) = some false :=
  ⟨rfl, ⟨sampleItem "B" false, by decide, rfl⟩, by decide, sampleNoID, rfl, by decide⟩

/-! ## Properties of `wrapText` -/

theorem splitLines_ne_nil (text : Bytes) : splitLines text ≠ [] := by
  cases text with
  | nil => simp [splitLines]
  | cons b rest =>
    unfold splitLines
    split <;> simp

/-- Splitting commutes with gluing two texts by a newline. -/
theorem splitLines_append_newline (a b : Bytes) :
    splitLines (a ++ 10 :: b) = splitLines a ++ splitLines b := by
  induction a with
  | nil => simp [splitLines]
  | cons x rest ih =>
    rw [List.cons_append]
    by_cases hx : x = 10
    · simp only [splitLines, hx, if_true, ih, List.cons_append]
    · simp only [splitLines, if_neg hx, ih]
      cases hs : splitLines rest with
      | nil => exact absurd hs (splitLines_ne_nil rest)
      | cons first others => simp

/-- No line is longer than the text it comes from. -/
theorem splitLines_length_le (text : Bytes) :
    ∀ line ∈ splitLines text, line.length ≤ text.length := by
  induction text with
  | nil => simp [splitLines]
  | cons b rest ih =>
    intro line hline
    by_cases hb : b = 10
    · simp only [splitLines, hb, if_true, List.mem_cons] at hline
      rcases hline with h | h
      · simp [h]
      · exact Nat.le_succ_of_le (ih line h)
    · simp only [splitLines, if_neg hb, List.mem_cons] at hline
      cases hs : splitLines rest with
      | nil => exact absurd hs (splitLines_ne_nil rest)
      | cons first others =>
        rw [hs] at hline ih
        rcases hline with h | h
        · have hfirst := ih first (List.mem_cons_self _ _)
          simp only [h, List.headD_cons, List.length_cons]
          omega
        · have := ih line (List.mem_cons_of_mem _ (by simpa using h))
          simp only [List.length_cons]
          omega

theorem LinesWithin_of_length (maxWidth : Nat) (text : Bytes) (h : text.length ≤ maxWidth) :
    LinesWithin maxWidth text :=
  fun line hline => Nat.le_trans (splitLines_length_le text line hline) h

theorem LinesWithin_append_newline (maxWidth : Nat) (a b : Bytes)
    (ha : LinesWithin maxWidth a) (hb : LinesWithin maxWidth b) :
    LinesWithin maxWidth (a ++ 10 :: b) := by
  intro line hline
  rw [splitLines_append_newline] at hline
  rcases List.mem_append.mp hline with h | h
  · exact ha line h
  · exact hb line h

theorem LinesWithin_joinLines (maxWidth : Nat) (lines : List Bytes)
    (h : ∀ l ∈ lines, LinesWithin maxWidth l) : LinesWithin maxWidth (joinLines lines) := by
  induction lines with
  | nil => exact LinesWithin_of_length maxWidth [] (Nat.zero_le _)
  | cons first rest ih =>
    cases rest with
    | nil => exact h first (List.mem_cons_self _ _)
    | cons second others =>
      unfold joinLines
      exact LinesWithin_append_newline maxWidth first _ (h first (List.mem_cons_self _ _))
        (ih (fun l hl => h l (List.mem_cons_of_mem _ hl)))

/-- The scan for a space stays in range and ends at an index no larger than where
it began. -/
theorem scanSpace_ok (remaining : Bytes) (idx : Nat) (h : idx < remaining.length) :
    ∃ found, scanSpace remaining idx = .ok found ∧ found ≤ idx := by
  induction idx with
  | zero => exact ⟨0, rfl, Nat.le_refl _⟩
  | succ n ih =>
    unfold scanSpace byteAt
    rw [List.getElem?_eq_getElem h]
    dsimp only
    by_cases hc : remaining[n + 1] ≠ 32
    · rw [if_pos hc]
      obtain ⟨found, hfound, hle⟩ := ih (Nat.lt_of_succ_lt h)
      exact ⟨found, hfound, Nat.le_succ_of_le hle⟩
    · rw [if_neg hc]
      exact ⟨n + 1, rfl, Nat.le_refl _⟩

theorem skipSpace_ok (remaining : Bytes) :
    ∃ rest, skipSpace remaining = .ok rest ∧ rest.length ≤ remaining.length := by
  unfold skipSpace
  by_cases hlen : remaining.length > 0
  · rw [if_pos hlen]
    unfold byteAt
    rw [List.getElem?_eq_getElem hlen]
    dsimp only
    by_cases hc : remaining[0] = 32
    · rw [if_pos hc]
      unfold sliceFrom
      rw [if_pos (show 1 ≤ remaining.length from hlen)]
      exact ⟨_, rfl, by simp⟩
    · rw [if_neg hc]
      exact ⟨_, rfl, Nat.le_refl _⟩
  · rw [if_neg hlen]
    exact ⟨_, rfl, Nat.le_refl _⟩

/-- The wrapping loop ends within the steps it is given, with no index out of
range, and what it appends to the builder has no line longer than `maxWidth`. -/
theorem wrapLoop_ok (maxWidth : Nat) (hpos : 0 < maxWidth) (steps : Nat) :
    ∀ (remaining wrapped : Bytes), remaining.length ≤ steps + maxWidth →
      ∃ tail, wrapLoop maxWidth steps remaining wrapped = .ok (wrapped ++ tail) ∧
        LinesWithin maxWidth tail := by
  induction steps with
  | zero =>
    intro remaining wrapped hlen
    have hnot : ¬ remaining.length > maxWidth := by omega
    unfold wrapLoop
    rw [if_neg hnot]
    exact ⟨remaining, rfl, LinesWithin_of_length _ _ (by omega)⟩
  | succ n ih =>
    intro remaining wrapped hlen
    unfold wrapLoop
    by_cases hlong : remaining.length > maxWidth
    · rw [if_pos hlong]
      obtain ⟨found, hfound, hle⟩ := scanSpace_ok remaining maxWidth hlong
      have hidx : 1 ≤ (if found = 0 then maxWidth else found) ∧
          (if found = 0 then maxWidth else found) ≤ maxWidth := by
        by_cases h0 : found = 0
        · rw [if_pos h0]
          omega
        · rw [if_neg h0]
          omega
      simp only [hfound]
      generalize (if found = 0 then maxWidth else found) = idx at hidx ⊢
      have hin : idx ≤ remaining.length := by omega
      obtain ⟨rest, hrest, hrestlen⟩ := skipSpace_ok (remaining.drop idx)
      have hsteps : rest.length ≤ n + maxWidth := by
        have := List.length_drop idx remaining
        omega
      obtain ⟨tail, htail, hwithin⟩ := ih rest (wrapped ++ remaining.take idx ++ [10]) hsteps
      refine ⟨remaining.take idx ++ 10 :: tail, ?_, ?_⟩
      · simp only [sliceTo, sliceFrom, if_pos hin, hrest, htail]
        simp
      · refine LinesWithin_append_newline _ _ _ (LinesWithin_of_length _ _ ?_) hwithin
        rw [List.length_take]
        omega
    · rw [if_neg hlong]
      exact ⟨remaining, rfl, LinesWithin_of_length _ _ (by omega)⟩

/-- More steps than needed change nothing. -/
theorem wrapLoop_more_steps (maxWidth steps extra : Nat) :
    ∀ (remaining wrapped out : Bytes),
      wrapLoop maxWidth steps remaining wrapped = .ok out →
      wrapLoop maxWidth (steps + extra) remaining wrapped = .ok out := by
  induction steps with
  | zero =>
    intro remaining wrapped out h
    unfold wrapLoop at h
    by_cases hlong : remaining.length > maxWidth
    · rw [if_pos hlong] at h
      cases h
    · rw [if_neg hlong] at h
      rw [Nat.zero_add]
      cases extra with
      | zero =>
        unfold wrapLoop
        rw [if_neg hlong]
        exact h
      | succ k =>
        unfold wrapLoop
        rw [if_neg hlong]
        exact h
  | succ n ih =>
    intro remaining wrapped out h
    rw [Nat.add_right_comm]
    unfold wrapLoop at h ⊢
    by_cases hlong : remaining.length > maxWidth
    · rw [if_pos hlong] at h ⊢
      cases hscan : scanSpace remaining maxWidth with
      | error err =>
        simp only [hscan] at h
        cases h
      | ok found =>
        simp only [hscan] at h ⊢
        cases hto : sliceTo remaining (if found = 0 then maxWidth else found) with
        | error err =>
          simp only [hto] at h
          cases h
        | ok head =>
          simp only [hto] at h ⊢
          cases hfrom : sliceFrom remaining (if found = 0 then maxWidth else found) with
          | error err =>
            simp only [hfrom] at h
            cases h
          | ok rest =>
            simp only [hfrom] at h ⊢
            cases hskip : skipSpace rest with
            | error err =>
              simp only [hskip] at h
              cases h
            | ok rest2 =>
              simp only [hskip] at h ⊢
              exact ih _ _ _ h
    · rw [if_neg hlong] at h ⊢
      exact h

theorem wrapLine_ok (maxWidth : Nat) (hpos : 0 < maxWidth) (line : Bytes)
    (htag : ¬ (60 ∈ line ∧ 62 ∈ line)) :
    ∃ out, wrapLine maxWidth line = .ok out ∧ LinesWithin maxWidth out := by
  unfold wrapLine
  by_cases hlong : line.length > maxWidth
  · rw [if_pos hlong]
    have hskip : (line.contains 60 && line.contains 62) = false := by
      rw [Bool.eq_false_iff]
      intro h
      apply htag
      simpa using h
    rw [hskip]
    obtain ⟨tail, htail, hwithin⟩ :=
      wrapLoop_ok maxWidth hpos line.length line [] (Nat.le_add_right _ _)
    exact ⟨tail, by simpa using htail, hwithin⟩
  · rw [if_neg hlong]
    exact ⟨line, rfl, LinesWithin_of_length _ _ (by omega)⟩

theorem wrapLines_ok (maxWidth : Nat) (hpos : 0 < maxWidth) (lines : List Bytes)
    (htag : ∀ line ∈ lines, ¬ (60 ∈ line ∧ 62 ∈ line)) :
    ∃ out, wrapLines maxWidth lines = .ok out ∧ ∀ l ∈ out, LinesWithin maxWidth l := by
  induction lines with
  | nil => exact ⟨[], rfl, by simp⟩
  | cons line rest ih =>
    obtain ⟨first, hfirst, hwithin⟩ :=
      wrapLine_ok maxWidth hpos line (htag line (List.mem_cons_self _ _))
    obtain ⟨others, hothers, hall⟩ := ih (fun l hl => htag l (List.mem_cons_of_mem _ hl))
    refine ⟨first :: others, ?_, ?_⟩
    · unfold wrapLines
      simp only [hfirst, hothers]
    · intro l hl
      rcases List.mem_cons.mp hl with h | h
      · rw [h]
        exact hwithin
      · exact hall l h

/-- C11: for `maxWidth <= 0`, `wrapText` returns the text unchanged. For
`maxWidth > 0` and a text none of whose lines contains both `<` and `>`, it returns
a result, with no index out of range and the wrapping loop of every line done
within as many steps as the line has bytes, and every line of the result, split at
the newlines, has at most `maxWidth` bytes. -/
theorem wrapText_bounded (text : Bytes) (maxWidth : Int) :
    (maxWidth ≤ 0 → wrapText text maxWidth = .ok text) ∧
    (0 < maxWidth → (∀ line ∈ splitLines text, ¬ (60 ∈ line ∧ 62 ∈ line)) →
      ∃ out, wrapText text maxWidth = .ok out ∧
        ∀ line ∈ splitLines out, (line.length : Int) ≤ maxWidth) := by
  constructor
  · intro h
    unfold wrapText
    rw [if_pos h]
  · intro hpos htag
    have hnat : 0 < maxWidth.toNat := by omega
    obtain ⟨lines, hlines, hall⟩ := wrapLines_ok maxWidth.toNat hnat (splitLines text) htag
    refine ⟨joinLines lines, ?_, ?_⟩
    · unfold wrapText
      rw [if_neg (by omega)]
      simp only [hlines]
    · intro line hline
      have := LinesWithin_joinLines maxWidth.toNat lines hall line hline
      omega

/-- The text "hello world foo bar baz" wrapped at 7 bytes: the call returns and no
line of the result has more than 7 bytes. -/
theorem wrapText_bounded_witness :
    ∃ out, wrapText (stringBytes "hello world foo bar baz") 7 = .ok out ∧
      ∀ line ∈ splitLines out, (line.length : Int) ≤ 7 :=
  (wrapText_bounded (stringBytes "hello world foo bar baz") 7).2 (by decide) (by decide)

/-- The result of that call, spelled out. -/
theorem wrapText_sample :
    wrapText (stringBytes "hello world foo bar baz") 7
      = .ok (stringBytes "hello\nworld\nfoo bar\nbaz") := by
  rfl

end RssReader
